import Mathlib

/-!
Shallow embedding of the composable-registry core of
`src/fastmcp/server/server.py` (class `MountedServer`, class `TimedCache`,
and the listing / dispatch / mutation / composition methods of class
`FastMCP`), together with proofs of the spec's testable properties.

Conventions of the embedding:
* Python strings are `List Char` (named `Str` below); `str.startswith` is
  `List.isPrefixOf`, `str.removeprefix` drops the prefix when it matches and
  returns the string unchanged otherwise.
* Python dicts (insertion-ordered, assignment keeps the position of an
  existing key, `update` merges with right precedence) are association
  lists with `dictSet` / `dictUpdate` below.
* `datetime.datetime.now()` is an explicit `Nat` time parameter threaded
  through every operation; `datetime.timedelta` is a `Nat` duration.
* The object graph of `FastMCP` servers (mounted servers hold *references*)
  is a heap `ServerId → ServerState`; async methods that can recurse through
  mounts take a fuel parameter and return `none` when fuel runs out (the
  Python code would recurse unboundedly on a mount cycle).
* Exceptions become `Except Err _`; `Err` has one constructor per exception
  class the code can raise from these methods (`NotFoundError`,
  `ResourceError`, the builtin `KeyError` from `dict.pop`) plus the
  `ConfigurationError` named by the specification's error taxonomy.
-/

namespace FastMCPModel

/-- Python strings, embedded as lists of characters. -/
abbrev Str := List Char

/-- `str.removeprefix(p)`: drop `p` when the string starts with it,
otherwise return the string unchanged. -/
def removePrefix (p s : Str) : Str :=
  if p.isPrefixOf s then s.drop p.length else s

/-- Python dict lookup `d.get(k)` over an association list. -/
def dictGet {α : Type} : List (Str × α) → Str → Option α
  | [], _ => none
  | (k', v) :: rest, k => if k' = k then some v else dictGet rest k

/-- Python dict assignment `d[k] = v`: replace the value in place when the
key is present (dicts keep the original insertion position), else append. -/
def dictSet {α : Type} : List (Str × α) → Str → α → List (Str × α)
  | [], k, v => [(k, v)]
  | (k', v') :: rest, k, v =>
      if k' = k then (k', v) :: rest else (k', v') :: dictSet rest k v

/-- Python `d.update(other)`: assign every pair of `other` into `d`,
in order, so entries of `other` overwrite entries of `d` on key collision. -/
def dictUpdate {α : Type} (d other : List (Str × α)) : List (Str × α) :=
  other.foldl (fun acc kv => dictSet acc kv.1 kv.2) d

theorem dictGet_dictSet {α : Type} (d : List (Str × α)) (k k' : Str) (v : α) :
    dictGet (dictSet d k v) k' = if k' = k then some v else dictGet d k' := by
  induction d with
  | nil =>
    simp only [dictSet, dictGet]
    by_cases h : k' = k
    · subst h; simp
    · rw [if_neg (fun hh => h hh.symm), if_neg h]
  | cons hd tl ih =>
    obtain ⟨k₀, v₀⟩ := hd
    by_cases h₀ : k₀ = k
    · subst h₀
      simp only [dictSet, if_pos rfl, dictGet]
      by_cases h₁ : k₀ = k'
      · subst h₁; simp
      · simp [h₁, Ne.symm h₁]
    · simp only [dictSet, if_neg h₀, dictGet, ih]
      by_cases h₁ : k₀ = k'
      · subst h₁; simp [h₀]
      · simp [h₁]

theorem dictGet_dictUpdate_of_not_mem {α : Type} (l : List (Str × α)) :
    ∀ d k, k ∉ l.map Prod.fst → dictGet (dictUpdate d l) k = dictGet d k := by
  induction l with
  | nil => intro d k _; rfl
  | cons hd tl ih =>
    intro d k hk
    obtain ⟨k₀, v₀⟩ := hd
    simp only [List.map_cons, List.mem_cons, not_or] at hk
    have hstep : dictUpdate d ((k₀, v₀) :: tl) = dictUpdate (dictSet d k₀ v₀) tl := rfl
    rw [hstep, ih _ k hk.2, dictGet_dictSet]
    exact if_neg hk.1

theorem dictGet_dictUpdate_of_mem {α : Type} (l : List (Str × α)) :
    ∀ d (k : Str) (v : α), (l.map Prod.fst).Nodup → dictGet l k = some v →
      dictGet (dictUpdate d l) k = some v := by
  induction l with
  | nil => intro d k v _ hget; simp [dictGet] at hget
  | cons hd tl ih =>
    intro d k v hnd hget
    obtain ⟨k₀, v₀⟩ := hd
    simp only [List.map_cons, List.nodup_cons] at hnd
    by_cases h₀ : k₀ = k
    · subst h₀
      simp only [dictGet, if_pos rfl] at hget
      calc dictGet (dictUpdate d ((k₀, v₀) :: tl)) k₀
          = dictGet (dictUpdate (dictSet d k₀ v₀) tl) k₀ := rfl
        _ = dictGet (dictSet d k₀ v₀) k₀ :=
            dictGet_dictUpdate_of_not_mem tl _ k₀ hnd.1
        _ = some v₀ := by simp [dictGet_dictSet]
        _ = some v := hget
    · simp only [dictGet, if_neg h₀] at hget
      exact ih (dictSet d k₀ v₀) k v hnd.2 hget

/-- The module-level `NOT_FOUND` sentinel returned by `TimedCache.get` on a
miss or an expired entry.  The embedding gives `get` the return type
`Option α`, whose `none` plays the role of the sentinel: it is distinct
from `some v` for every cached value `v`, even when `α` itself is an
option type (a legitimately cached Python `None`). -/
def NOT_FOUND {α : Type} : Option α := none

/-- `class TimedCache`: a key → (value, absolute expiry) store.  The store
is embedded as a function so that `set` is dict assignment. -/
structure TimedCache (κ α : Type) where
  expiration : Nat
  cache : κ → Option (α × Nat)

/-- `TimedCache.set`: store `value` under `key` with expiry
`now + expiration`, overwriting any prior entry. -/
def TimedCache.set [DecidableEq κ] (c : TimedCache κ α) (now : Nat)
    (key : κ) (value : α) : TimedCache κ α :=
  { c with cache := fun k => if k = key then some (value, now + c.expiration) else c.cache k }

/-- `TimedCache.get`: return the stored value when the entry exists and its
expiry is strictly in the future (`value[1] > datetime.datetime.now()`),
else the `NOT_FOUND` sentinel. -/
def TimedCache.get (c : TimedCache κ α) (now : Nat) (key : κ) : Option α :=
  match c.cache key with
  | some (v, expires) => if now < expires then some v else NOT_FOUND
  | none => NOT_FOUND

/-- `TimedCache.clear`: remove all entries. -/
def TimedCache.clear (c : TimedCache κ α) : TimedCache κ α :=
  { c with cache := fun _ => none }

/-- Identity of a `FastMCP` server object in the heap. -/
abbrev ServerId := Nat

/-- Tools are opaque to this core beyond identity (their execution is an
external collaborator). -/
abbrev Tool := Nat

/-- Resource templates, opaque to this core. -/
abbrev Template := Nat

/-- Prompts, opaque to this core. -/
abbrev Prompt := Nat

deriving instance DecidableEq for Except

/-- A resource: its `read()` either yields content or raises (the `Except`
error is the text of the raised exception), and it has a mime type. -/
structure Resource where
  readResult : Except Str Str
  mimeType : Str
deriving DecidableEq

/-- `class MountedServer`: a prefixed live reference to another server.
The Python `server` attribute is an object reference, embedded as a
`ServerId` into the heap; `pfx` embeds the `prefix` attribute. -/
structure MountedServer where
  pfx : Str
  server : ServerId
  toolSeparator : Str
  resourceSeparator : Str
  promptSeparator : Str
deriving DecidableEq

/-- `MountedServer.__init__`: separators default to `"_"` for tools and
prompts and `"+"` for resources when `None` is passed. -/
def MountedServer.mk' (pfx : Str) (server : ServerId)
    (toolSeparator resourceSeparator promptSeparator : Option Str) :
    MountedServer :=
  { pfx := pfx
    server := server
    toolSeparator := toolSeparator.getD ['_']
    resourceSeparator := resourceSeparator.getD ['+']
    promptSeparator := promptSeparator.getD ['_'] }

/-- `MountedServer.match_tool`: `key.startswith(prefix + tool_separator)`. -/
def MountedServer.matchTool (m : MountedServer) (key : Str) : Bool :=
  (m.pfx ++ m.toolSeparator).isPrefixOf key

/-- `MountedServer.strip_tool_prefix`:
`key.removeprefix(prefix + tool_separator)`. -/
def MountedServer.stripToolPrefix (m : MountedServer) (key : Str) : Str :=
  removePrefix (m.pfx ++ m.toolSeparator) key

/-- `MountedServer.match_resource`. -/
def MountedServer.matchResource (m : MountedServer) (key : Str) : Bool :=
  (m.pfx ++ m.resourceSeparator).isPrefixOf key

/-- `MountedServer.strip_resource_prefix`. -/
def MountedServer.stripResourcePrefix (m : MountedServer) (key : Str) : Str :=
  removePrefix (m.pfx ++ m.resourceSeparator) key

/-- `MountedServer.match_prompt`. -/
def MountedServer.matchPrompt (m : MountedServer) (key : Str) : Bool :=
  (m.pfx ++ m.promptSeparator).isPrefixOf key

/-- `MountedServer.strip_prompt_prefix`. -/
def MountedServer.stripPromptPrefix (m : MountedServer) (key : Str) : Str :=
  removePrefix (m.pfx ++ m.promptSeparator) key

/-- The state of one `FastMCP` server object.  The four `cache…` fields
embed the single `TimedCache` instance `self._cache`, whose only keys are
the category names `"tools"`, `"resources"`, `"resource_templates"` and
`"prompts"`: one typed slot per key, each holding `(value, absolute
expiry)`; `ttl` embeds `settings.cache_expiration_seconds`.  The leaf
managers (`ToolManager`, `ResourceManager`, `PromptManager`) are embedded
as their key → item dicts; a manager-level add overwrites on a duplicate
key (the configured duplicate policy is an external collaborator).
`mounts` embeds `self._mounted_servers` (an insertion-ordered dict keyed
by prefix, each value's `pfx` equal to its key). -/
structure ServerState where
  toolMgr : List (Str × Tool)
  resourceMgr : List (Str × Resource)
  templateMgr : List (Str × Template)
  promptMgr : List (Str × Prompt)
  mounts : List MountedServer
  cacheTools : Option (List (Str × Tool) × Nat)
  cacheResources : Option (List (Str × Resource) × Nat)
  cacheTemplates : Option (List (Str × Template) × Nat)
  cachePrompts : Option (List (Str × Prompt) × Nat)
  ttl : Nat
deriving DecidableEq

/-- The heap of server objects: mounted servers are shared references. -/
abbrev Heap := ServerId → ServerState

/-- Replace the state of one server in the heap. -/
def updateServer (h : Heap) (sid : ServerId) (f : ServerState → ServerState) :
    Heap :=
  fun i => if i = sid then f (h i) else h i

/-- `self._cache.clear()`: every category slot emptied. -/
def ServerState.clearCache (s : ServerState) : ServerState :=
  { s with cacheTools := none, cacheResources := none,
           cacheTemplates := none, cachePrompts := none }

/-- `TimedCache.get` specialised to one category slot: the cached value when
present and not expired, else a miss. -/
def cacheRead (now : Nat) : Option (β × Nat) → Option β
  | some (v, expires) => if now < expires then some v else none
  | none => none

/-- The dict comprehension of `MountedServer.get_tools` (and the other
categories): rename every key of the target's listing to
`prefix + separator + key`. -/
def prefixedView (pfx sep : Str) (l : List (Str × α)) : List (Str × α) :=
  l.map fun kv => (pfx ++ sep ++ kv.1, kv.2)

/-- One category's projections out of a server state: its leaf-manager
dict, its cache slot (read and write), and which separator of a mount
binding applies.  `FastMCP.get_tools` / `get_resources` /
`get_resource_templates` / `get_prompts` share this shape. -/
structure CatOps (α : Type) where
  mgr : ServerState → List (Str × α)
  readSlot : ServerState → Option (List (Str × α) × Nat)
  writeSlot : ServerState → List (Str × α) × Nat → ServerState
  sepOf : MountedServer → Str

/-- The `for server in self._mounted_servers.values(): …ateDict.update(await
server.get_<category>())` loop of a listing method: fold the mounts in
registration order, fetching each target's listing with `go` (which may
mutate the heap by populating caches) and merging the prefixed view into
the accumulator with dict-`update` semantics. -/
def listMountsThen (go : ServerId → Heap → Option (List (Str × α) × Heap))
    (sepOf : MountedServer → Str) :
    List MountedServer → List (Str × α) → Heap →
      Option (List (Str × α) × Heap)
  | [], acc, h => some (acc, h)
  | m :: rest, acc, h =>
    match go m.server h with
    | none => none
    | some (child, h') =>
        listMountsThen go sepOf rest
          (dictUpdate acc (prefixedView m.pfx (sepOf m) child)) h'

/-- The common body of `FastMCP.get_tools` / `get_resources` /
`get_resource_templates` / `get_prompts`: on a cache hit return the cached
dict; on a miss, merge every mount's prefixed listing in registration
order, merge the local leaf manager last, store the result in the cache
slot with expiry `now + ttl`, and return it.  The first argument is
recursion fuel: the Python code recurses unboundedly through mount
references, and `none` means the fuel ran out. -/
def listCat (ops : CatOps α) : Nat → Nat → Heap → ServerId →
    Option (List (Str × α) × Heap)
  | 0, _, _, _ => none
  | fuel + 1, now, h, sid =>
    match cacheRead now (ops.readSlot (h sid)) with
    | some v => some (v, h)
    | none =>
      match listMountsThen (fun tgt hh => listCat ops fuel now hh tgt)
          ops.sepOf (h sid).mounts [] h with
      | none => none
      | some (acc, h') =>
        let res := dictUpdate acc (ops.mgr (h' sid))
        some (res, updateServer h' sid fun s => ops.writeSlot s (res, now + s.ttl))

/-- The tools category. -/
def toolOps : CatOps Tool :=
  { mgr := fun s => s.toolMgr
    readSlot := fun s => s.cacheTools
    writeSlot := fun s v => { s with cacheTools := some v }
    sepOf := fun m => m.toolSeparator }

/-- The resources category. -/
def resourceOps : CatOps Resource :=
  { mgr := fun s => s.resourceMgr
    readSlot := fun s => s.cacheResources
    writeSlot := fun s v => { s with cacheResources := some v }
    sepOf := fun m => m.resourceSeparator }

/-- The resource-templates category (prefixed with the resource separator). -/
def templateOps : CatOps Template :=
  { mgr := fun s => s.templateMgr
    readSlot := fun s => s.cacheTemplates
    writeSlot := fun s v => { s with cacheTemplates := some v }
    sepOf := fun m => m.resourceSeparator }

/-- The prompts category. -/
def promptOps : CatOps Prompt :=
  { mgr := fun s => s.promptMgr
    readSlot := fun s => s.cachePrompts
    writeSlot := fun s v => { s with cachePrompts := some v }
    sepOf := fun m => m.promptSeparator }

/-- `FastMCP.get_tools`. -/
def getTools : Nat → Nat → Heap → ServerId →
    Option (List (Str × Tool) × Heap) := listCat toolOps

/-- `FastMCP.get_resources`. -/
def getResources : Nat → Nat → Heap → ServerId →
    Option (List (Str × Resource) × Heap) := listCat resourceOps

/-- `FastMCP.get_resource_templates`. -/
def getResourceTemplates : Nat → Nat → Heap → ServerId →
    Option (List (Str × Template) × Heap) := listCat templateOps

/-- `FastMCP.get_prompts`. -/
def getPrompts : Nat → Nat → Heap → ServerId →
    Option (List (Str × Prompt) × Heap) := listCat promptOps

/-- The exception classes these methods can raise: `NotFoundError` and
`ResourceError` from `fastmcp.exceptions`, the builtin `KeyError` raised
by `dict.pop` on a missing key, and the `ConfigurationError` the
specification's error taxonomy names (no method of this file's source
raises it). -/
inductive Err where
  | notFound (msg : Str)
  | resourceError (msg : Str)
  | keyError
  | configurationError
deriving DecidableEq

/-- Tool arguments, opaque to this core. -/
abbrev Args := Nat

/-- `FastMCP._mcp_call_tool`: local leaf manager first (`has_tool`), else
the first mounted server in registration order whose `match_tool` holds
gets the recursive call with the stripped key, else
`NotFoundError(f"Unknown tool: {key}")`.  Invoking a local tool is the
external collaborator `ToolManager.call_tool`, whose result is embedded
as the pair (tool, arguments). -/
def mcpCallTool : Nat → Heap → ServerId → Str → Args →
    Option (Except Err (Tool × Args))
  | 0, _, _, _, _ => none
  | fuel + 1, h, sid, key, args =>
    match dictGet (h sid).toolMgr key with
    | some t => some (.ok (t, args))
    | none =>
      match (h sid).mounts.find? (fun m => m.matchTool key) with
      | some m => mcpCallTool fuel h m.server (m.stripToolPrefix key) args
      | none => some (.error (.notFound ("Unknown tool: ".toList ++ key)))

/-- `FastMCP._mcp_read_resource`: when the local manager has the URI, read
the item — a raised exception `e` is re-raised as `ResourceError(str(e))`;
otherwise forward to the first matching mount with the stripped URI, else
`NotFoundError(f"Unknown resource: {uri}")`.  A successful read returns
`ReadResourceContents(content, mime_type)`, embedded as the pair. -/
def mcpReadResource : Nat → Heap → ServerId → Str →
    Option (Except Err (Str × Str))
  | 0, _, _, _ => none
  | fuel + 1, h, sid, uri =>
    match dictGet (h sid).resourceMgr uri with
    | some r =>
      some (match r.readResult with
        | .ok content => .ok (content, r.mimeType)
        | .error e => .error (.resourceError e))
    | none =>
      match (h sid).mounts.find? (fun m => m.matchResource uri) with
      | some m => mcpReadResource fuel h m.server (m.stripResourcePrefix uri)
      | none => some (.error (.notFound ("Unknown resource: ".toList ++ uri)))

/-- `FastMCP._mcp_get_prompt`: same resolution pattern for prompts; the
rendered result of a local prompt is embedded as (prompt, arguments). -/
def mcpGetPrompt : Nat → Heap → ServerId → Str → Option Args →
    Option (Except Err (Prompt × Option Args))
  | 0, _, _, _, _ => none
  | fuel + 1, h, sid, name, args =>
    match dictGet (h sid).promptMgr name with
    | some p => some (.ok (p, args))
    | none =>
      match (h sid).mounts.find? (fun m => m.matchPrompt name) with
      | some m => mcpGetPrompt fuel h m.server (m.stripPromptPrefix name) args
      | none => some (.error (.notFound ("Unknown prompt: ".toList ++ name)))

/-- `ToolManager.add_tool` (a leaf-manager write, no cache effect). -/
def ServerState.mgrAddTool (s : ServerState) (key : Str) (t : Tool) :
    ServerState :=
  { s with toolMgr := dictSet s.toolMgr key t }

/-- `ResourceManager.add_resource` (leaf-manager write). -/
def ServerState.mgrAddResource (s : ServerState) (key : Str) (r : Resource) :
    ServerState :=
  { s with resourceMgr := dictSet s.resourceMgr key r }

/-- `ResourceManager.add_template` (leaf-manager write). -/
def ServerState.mgrAddTemplate (s : ServerState) (key : Str) (t : Template) :
    ServerState :=
  { s with templateMgr := dictSet s.templateMgr key t }

/-- `PromptManager.add_prompt` (leaf-manager write). -/
def ServerState.mgrAddPrompt (s : ServerState) (key : Str) (p : Prompt) :
    ServerState :=
  { s with promptMgr := dictSet s.promptMgr key p }

/-- `FastMCP.add_tool`: write into the local tool manager, then
`self._cache.clear()`. -/
def FastMCP.addTool (h : Heap) (sid : ServerId) (key : Str) (t : Tool) :
    Heap :=
  updateServer h sid fun s => (s.mgrAddTool key t).clearCache

/-- `FastMCP.add_resource`: write into the local resource manager, then
clear the cache. -/
def FastMCP.addResource (h : Heap) (sid : ServerId) (key : Str)
    (r : Resource) : Heap :=
  updateServer h sid fun s => (s.mgrAddResource key r).clearCache

/-- `FastMCP.add_prompt`: write into the local prompt manager, then clear
the cache. -/
def FastMCP.addPrompt (h : Heap) (sid : ServerId) (key : Str) (p : Prompt) :
    Heap :=
  updateServer h sid fun s => (s.mgrAddPrompt key p).clearCache

/-- `FastMCP.add_resource_fn` in its template-registering case (a
parameterized URI makes `ResourceManager.add_resource_or_template_from_fn`
register a `ResourceTemplate`): write into the local template dict, then
clear the cache. -/
def FastMCP.addTemplate (h : Heap) (sid : ServerId) (key : Str)
    (tp : Template) : Heap :=
  updateServer h sid fun s => (s.mgrAddTemplate key tp).clearCache

/-- Python dict assignment on `self._mounted_servers` keyed by prefix: an
existing prefix keeps its position, a new one is appended. -/
def mountsAssign : List MountedServer → MountedServer → List MountedServer
  | [], m => [m]
  | m' :: rest, m =>
      if m'.pfx = m.pfx then m :: rest else m' :: mountsAssign rest m

/-- `self._mounted_servers.pop(prefix)` with no default: `none` embeds the
builtin `KeyError` on a missing key. -/
def mountsPop : List MountedServer → Str → Option (List MountedServer)
  | [], _ => none
  | m :: rest, p =>
      if m.pfx = p then some rest else (mountsPop rest p).map (m :: ·)

/-- `FastMCP.mount`: install a `MountedServer` under the prefix (separators
defaulted by `MountedServer.__init__`) and clear the cache. -/
def FastMCP.mount (h : Heap) (sid : ServerId) (pfx : Str) (target : ServerId)
    (toolSeparator resourceSeparator promptSeparator : Option Str) : Heap :=
  updateServer h sid fun s =>
    let m := MountedServer.mk' pfx target toolSeparator resourceSeparator
      promptSeparator
    ({ s with mounts := mountsAssign s.mounts m }).clearCache

/-- `FastMCP.unmount`: `self._mounted_servers.pop(prefix)` then
`self._cache.clear()`; a missing prefix raises the builtin `KeyError`
(and the cache is then not cleared). -/
def FastMCP.unmount (h : Heap) (sid : ServerId) (pfx : Str) :
    Except Err Heap :=
  match mountsPop (h sid).mounts pfx with
  | some ms =>
      .ok (updateServer h sid fun s => ({ s with mounts := ms }).clearCache)
  | none => .error .keyError

/-- The tools section of `FastMCP.import_server`: resolve
`await server.get_tools()` once, then the `for key, tool …` loop of
`self._tool_manager.add_tool(tool, key=f"{tool_prefix}{key}")` calls —
manager-level adds, which do not touch the cache; the loop is the left
fold `dictUpdate`. -/
def importToolsStep (fuel now : Nat) (h : Heap) (sid : ServerId)
    (pfx toolSep : Str) (src : ServerId) : Option Heap :=
  match getTools fuel now h src with
  | none => none
  | some (tools, h1) =>
    some (updateServer h1 sid fun s =>
      { s with toolMgr := dictUpdate s.toolMgr (prefixedView pfx toolSep tools) })

/-- The resources section of `FastMCP.import_server`. -/
def importResourcesStep (fuel now : Nat) (h : Heap) (sid : ServerId)
    (pfx resourceSep : Str) (src : ServerId) : Option Heap :=
  match getResources fuel now h src with
  | none => none
  | some (ress, h1) =>
    some (updateServer h1 sid fun s =>
      { s with resourceMgr :=
          dictUpdate s.resourceMgr (prefixedView pfx resourceSep ress) })

/-- The templates section of `FastMCP.import_server` (prefixed with the
resource separator). -/
def importTemplatesStep (fuel now : Nat) (h : Heap) (sid : ServerId)
    (pfx resourceSep : Str) (src : ServerId) : Option Heap :=
  match getResourceTemplates fuel now h src with
  | none => none
  | some (tpls, h1) =>
    some (updateServer h1 sid fun s =>
      { s with templateMgr :=
          dictUpdate s.templateMgr (prefixedView pfx resourceSep tpls) })

/-- The prompts section of `FastMCP.import_server`. -/
def importPromptsStep (fuel now : Nat) (h : Heap) (sid : ServerId)
    (pfx promptSep : Str) (src : ServerId) : Option Heap :=
  match getPrompts fuel now h src with
  | none => none
  | some (prs, h1) =>
    some (updateServer h1 sid fun s =>
      { s with promptMgr :=
          dictUpdate s.promptMgr (prefixedView pfx promptSep prs) })

/-- `FastMCP.import_server`: resolve the source's listing once per
category (tools, then resources, then templates, then prompts), write each
prefixed entry into the local leaf managers via the manager-level adds,
and clear the importer's cache once at the very end. -/
def FastMCP.importServer (fuel now : Nat) (h : Heap) (sid : ServerId)
    (pfx : Str) (src : ServerId)
    (toolSeparator resourceSeparator promptSeparator : Option Str) :
    Option Heap :=
  let toolSep := toolSeparator.getD ['_']
  let resourceSep := resourceSeparator.getD ['+']
  let promptSep := promptSeparator.getD ['_']
  match importToolsStep fuel now h sid pfx toolSep src with
  | none => none
  | some h2 =>
    match importResourcesStep fuel now h2 sid pfx resourceSep src with
    | none => none
    | some h4 =>
      match importTemplatesStep fuel now h4 sid pfx resourceSep src with
      | none => none
      | some h6 =>
        match importPromptsStep fuel now h6 sid pfx promptSep src with
        | none => none
        | some h8 => some (updateServer h8 sid ServerState.clearCache)

/-! ### Helper lemmas -/

theorem updateServer_self (h : Heap) (sid : ServerId)
    (f : ServerState → ServerState) : updateServer h sid f sid = f (h sid) := by
  simp [updateServer]

theorem updateServer_ne (h : Heap) (sid sid' : ServerId)
    (f : ServerState → ServerState) (hne : sid' ≠ sid) :
    updateServer h sid f sid' = h sid' := by
  simp [updateServer, hne]

theorem dictGet_eq_none_iff {α : Type} (l : List (Str × α)) (k : Str) :
    dictGet l k = none ↔ k ∉ l.map Prod.fst := by
  induction l with
  | nil => simp [dictGet]
  | cons hd tl ih =>
    obtain ⟨k₀, v₀⟩ := hd
    simp only [dictGet, List.map_cons, List.mem_cons, not_or]
    by_cases h₀ : k₀ = k
    · subst h₀
      simp only [if_pos rfl]
      exact ⟨fun hc => Option.noConfusion hc, fun hc => (hc.1 trivial).elim⟩
    · rw [if_neg h₀, ih]
      exact ⟨fun hc => ⟨fun hh => h₀ hh.symm, hc⟩, fun hc => hc.2⟩

theorem dictSet_eq_append_of_not_mem {α : Type} (d : List (Str × α))
    (k : Str) (v : α) (hk : k ∉ d.map Prod.fst) :
    dictSet d k v = d ++ [(k, v)] := by
  induction d with
  | nil => rfl
  | cons hd tl ih =>
    obtain ⟨k₀, v₀⟩ := hd
    simp only [List.map_cons, List.mem_cons, not_or] at hk
    have h₀ : ¬ k₀ = k := fun hh => hk.1 hh.symm
    simp [dictSet, h₀, ih hk.2]

theorem dictSet_keys_nodup {α : Type} (d : List (Str × α)) (k : Str) (v : α)
    (hnd : (d.map Prod.fst).Nodup) :
    ((dictSet d k v).map Prod.fst).Nodup := by
  by_cases hk : k ∈ d.map Prod.fst
  · have : (dictSet d k v).map Prod.fst = d.map Prod.fst := by
      clear hnd
      induction d with
      | nil => simp at hk
      | cons hd tl ih =>
        obtain ⟨k₀, v₀⟩ := hd
        by_cases h₀ : k₀ = k
        · simp [dictSet, h₀]
        · simp only [List.map_cons, List.mem_cons] at hk
          rcases hk with hk | hk
          · exact absurd hk.symm h₀
          · simp [dictSet, h₀, ih hk]
    rw [this]; exact hnd
  · rw [dictSet_eq_append_of_not_mem d k v hk, List.map_append]
    refine List.Nodup.append hnd (by simp) ?_
    intro x hx hx'
    simp only [List.map_cons, List.map_nil, List.mem_singleton] at hx'
    subst hx'
    exact hk hx

theorem dictUpdate_eq_append {α : Type} (l : List (Str × α)) :
    ∀ d, (∀ k ∈ l.map Prod.fst, k ∉ d.map Prod.fst) →
      (l.map Prod.fst).Nodup → dictUpdate d l = d ++ l := by
  induction l with
  | nil => intro d _ _; simp [dictUpdate]
  | cons hd tl ih =>
    intro d hdisj hnd
    obtain ⟨k₀, v₀⟩ := hd
    simp only [List.map_cons, List.nodup_cons] at hnd
    have hk₀ : k₀ ∉ d.map Prod.fst :=
      hdisj k₀ (by simp only [List.map_cons]; exact List.mem_cons_self _ _)
    have hstep : dictUpdate d ((k₀, v₀) :: tl) =
        dictUpdate (dictSet d k₀ v₀) tl := rfl
    rw [hstep, dictSet_eq_append_of_not_mem d k₀ v₀ hk₀,
      ih (d ++ [(k₀, v₀)]) ?_ hnd.2]
    · simp
    · intro k hk
      simp only [List.map_append, List.mem_append, List.map_cons,
        List.map_nil, not_or]
      have hk' : k ∈ List.map Prod.fst ((k₀, v₀) :: tl) := by
        simp only [List.map_cons]
        exact List.mem_cons_of_mem _ hk
      refine ⟨fun hc => hdisj k hk' hc, ?_⟩
      intro hc
      rw [List.mem_singleton] at hc
      exact hnd.1 (hc ▸ hk)

theorem dictUpdate_nil {α : Type} (l : List (Str × α))
    (hnd : (l.map Prod.fst).Nodup) : dictUpdate [] l = l := by
  rw [dictUpdate_eq_append l [] (fun k _ => List.not_mem_nil k) hnd,
    List.nil_append]

theorem prefixedView_keys {α : Type} (pfx sep : Str) (l : List (Str × α)) :
    (prefixedView pfx sep l).map Prod.fst =
      (l.map Prod.fst).map (fun k => pfx ++ sep ++ k) := by
  simp [prefixedView, Function.comp]

theorem prefixedView_keys_nodup {α : Type} (pfx sep : Str)
    (l : List (Str × α)) (hnd : (l.map Prod.fst).Nodup) :
    ((prefixedView pfx sep l).map Prod.fst).Nodup := by
  rw [prefixedView_keys]
  exact hnd.map fun a b hab => List.append_cancel_left hab

theorem dictGet_prefixedView {α : Type} (pfx sep : Str)
    (l : List (Str × α)) (k : Str) :
    dictGet (prefixedView pfx sep l) (pfx ++ sep ++ k) = dictGet l k := by
  induction l with
  | nil => rfl
  | cons hd tl ih =>
    obtain ⟨k₀, v₀⟩ := hd
    by_cases h₀ : k₀ = k
    · subst h₀; simp [prefixedView, dictGet]
    · have hne : ¬ pfx ++ sep ++ k₀ = pfx ++ sep ++ k := fun hc =>
        h₀ (List.append_cancel_left hc)
      simpa [prefixedView, dictGet, hne, h₀] using ih

theorem listCat_zero {α : Type} (ops : CatOps α) (now : Nat) (h : Heap)
    (sid : ServerId) : listCat ops 0 now h sid = none := rfl

theorem listCat_succ {α : Type} (ops : CatOps α) (fuel now : Nat) (h : Heap)
    (sid : ServerId) :
    listCat ops (fuel + 1) now h sid =
      match cacheRead now (ops.readSlot (h sid)) with
      | some v => some (v, h)
      | none =>
        match listMountsThen (fun tgt hh => listCat ops fuel now hh tgt)
            ops.sepOf (h sid).mounts [] h with
        | none => none
        | some (acc, h') =>
          some (dictUpdate acc (ops.mgr (h' sid)),
            updateServer h' sid fun s =>
              ops.writeSlot s (dictUpdate acc (ops.mgr (h' sid)), now + s.ttl)) :=
  rfl

theorem listCat_hit {α : Type} {ops : CatOps α} {fuel now : Nat} {h : Heap}
    {sid : ServerId} {v : List (Str × α)}
    (hhit : cacheRead now (ops.readSlot (h sid)) = some v) :
    listCat ops (fuel + 1) now h sid = some (v, h) := by
  rw [listCat_succ, hhit]

theorem listCat_nomounts {α : Type} {ops : CatOps α} {fuel now : Nat}
    {h : Heap} {sid : ServerId} (hm : (h sid).mounts = [])
    (hmiss : cacheRead now (ops.readSlot (h sid)) = none) :
    listCat ops (fuel + 1) now h sid =
      some (dictUpdate [] (ops.mgr (h sid)),
        updateServer h sid fun s =>
          ops.writeSlot s (dictUpdate [] (ops.mgr (h sid)), now + s.ttl)) := by
  rw [listCat_succ, hmiss, hm]
  rfl

theorem listCat_fst_congr {α : Type} (ops : CatOps α) (fuel now : Nat)
    (h₁ h₂ : Heap) (sid : ServerId) (hm : (h₁ sid).mounts = [])
    (heq : h₁ sid = h₂ sid) :
    (listCat ops fuel now h₁ sid).map Prod.fst =
      (listCat ops fuel now h₂ sid).map Prod.fst := by
  cases fuel with
  | zero => rfl
  | succ fuel =>
    cases hc : cacheRead now (ops.readSlot (h₁ sid)) with
    | some v =>
      have hc₂ : cacheRead now (ops.readSlot (h₂ sid)) = some v := by
        rw [← heq]; exact hc
      rw [listCat_hit hc, listCat_hit hc₂]
      rfl
    | none =>
      have hc₂ : cacheRead now (ops.readSlot (h₂ sid)) = none := by
        rw [← heq]; exact hc
      have hm₂ : (h₂ sid).mounts = [] := by rw [← heq]; exact hm
      rw [listCat_nomounts hm hc, listCat_nomounts hm₂ hc₂, heq]
      rfl

theorem listCat_nomounts_offsid {α : Type} {ops : CatOps α} {fuel now : Nat}
    {h h' : Heap} {sid : ServerId} {res : List (Str × α)}
    (hm : (h sid).mounts = [])
    (hres : listCat ops (fuel + 1) now h sid = some (res, h'))
    (sid' : ServerId) (hne : sid' ≠ sid) : h' sid' = h sid' := by
  cases hc : cacheRead now (ops.readSlot (h sid)) with
  | some v =>
    rw [listCat_hit hc] at hres
    have hsnd : h = h' := congrArg Prod.snd (Option.some.inj hres)
    rw [← hsnd]
  | none =>
    rw [listCat_nomounts hm hc] at hres
    have hsnd : updateServer h sid (fun s =>
        ops.writeSlot s (dictUpdate [] (ops.mgr (h sid)), now + s.ttl)) = h' :=
      congrArg Prod.snd (Option.some.inj hres)
    rw [← hsnd]
    exact updateServer_ne h sid sid' _ hne

theorem listCat_local_precedence {α : Type} (ops : CatOps α)
    (hwk : ∀ s v, ops.mgr (ops.writeSlot s v) = ops.mgr s)
    (fuel now : Nat) (h : Heap) (sid : ServerId) (res : List (Str × α))
    (h' : Heap) (k : Str) (v : α)
    (hres : listCat ops fuel now h sid = some (res, h'))
    (hmiss : cacheRead now (ops.readSlot (h sid)) = none)
    (hnd : ((ops.mgr (h' sid)).map Prod.fst).Nodup)
    (hloc : dictGet (ops.mgr (h' sid)) k = some v) :
    dictGet res k = some v := by
  cases fuel with
  | zero => exact Option.noConfusion hres
  | succ fuel =>
    rw [listCat_succ, hmiss] at hres
    cases hlm : listMountsThen (fun tgt hh => listCat ops fuel now hh tgt)
        ops.sepOf (h sid).mounts [] h with
    | none =>
      rw [hlm] at hres
      exact Option.noConfusion hres
    | some p =>
      obtain ⟨acc, h''⟩ := p
      rw [hlm] at hres
      have hp : (dictUpdate acc (ops.mgr (h'' sid)),
          updateServer h'' sid fun s =>
            ops.writeSlot s (dictUpdate acc (ops.mgr (h'' sid)), now + s.ttl)) =
          (res, h') := Option.some.inj hres
      have hres_fst : dictUpdate acc (ops.mgr (h'' sid)) = res :=
        congrArg Prod.fst hp
      have hres_snd : (updateServer h'' sid fun s =>
          ops.writeSlot s (dictUpdate acc (ops.mgr (h'' sid)), now + s.ttl)) = h' :=
        congrArg Prod.snd hp
      have hmgr : ops.mgr (h' sid) = ops.mgr (h'' sid) := by
        rw [← hres_snd]
        show ops.mgr (updateServer h'' sid _ sid) = _
        rw [updateServer_self, hwk]
      rw [← hres_fst]
      rw [hmgr] at hnd hloc
      exact dictGet_dictUpdate_of_mem _ _ _ _ hnd hloc

theorem isPrefixOf_eq_false_of_not_prefix {p s : Str} (h : ¬ p <+: s) :
    p.isPrefixOf s = false := by
  cases hb : p.isPrefixOf s
  · rfl
  · exact absurd (List.isPrefixOf_iff_prefix.mp hb) h

theorem removePrefix_append (p k : Str) : removePrefix p (p ++ k) = k := by
  have hpre : p.isPrefixOf (p ++ k) = true :=
    List.isPrefixOf_iff_prefix.mpr (List.prefix_append p k)
  simp [removePrefix, hpre]

theorem mountsPop_eq_some_eraseP {l : List MountedServer} {p : Str}
    {l' : List MountedServer} (hp : mountsPop l p = some l') :
    l' = l.eraseP (fun m => decide (m.pfx = p)) := by
  induction l generalizing l' with
  | nil => exact Option.noConfusion hp
  | cons m rest ih =>
    by_cases h₀ : m.pfx = p
    · simp only [mountsPop, if_pos h₀] at hp
      rw [List.eraseP_cons_of_pos (by simp [h₀]), ← Option.some.inj hp]
    · simp only [mountsPop, if_neg h₀] at hp
      cases hpop : mountsPop rest p with
      | none =>
        rw [hpop] at hp
        exact Option.noConfusion hp
      | some l'' =>
        rw [hpop] at hp
        have hp' : some (m :: l'') = some l' := hp
        rw [List.eraseP_cons_of_neg (by simp [h₀]), ← Option.some.inj hp',
          ih hpop]

theorem mountsPop_eq_none {l : List MountedServer} {p : Str}
    (h : ∀ m ∈ l, m.pfx ≠ p) : mountsPop l p = none := by
  induction l with
  | nil => rfl
  | cons m rest ih =>
    simp only [mountsPop, if_neg (h m (List.mem_cons_self m rest))]
    rw [ih fun m' hm' => h m' (List.mem_cons_of_mem m hm')]
    rfl

/-- Every cache slot of a registry is empty. -/
def ServerState.cacheCleared (s : ServerState) : Prop :=
  s.cacheTools = none ∧ s.cacheResources = none ∧
    s.cacheTemplates = none ∧ s.cachePrompts = none

theorem clearCache_cacheCleared (s : ServerState) :
    s.clearCache.cacheCleared :=
  ⟨rfl, rfl, rfl, rfl⟩

theorem importServer_clears {fuel now : Nat} {h : Heap} {sid : ServerId}
    {pfx : Str} {src : ServerId} {ts rs ps : Option Str} {h' : Heap}
    (himp : FastMCP.importServer fuel now h sid pfx src ts rs ps = some h') :
    (h' sid).cacheCleared := by
  simp only [FastMCP.importServer] at himp
  split at himp
  · exact Option.noConfusion himp
  · split at himp
    · exact Option.noConfusion himp
    · split at himp
      · exact Option.noConfusion himp
      · split at himp
        · exact Option.noConfusion himp
        · have hupd := Option.some.inj himp
          rw [← hupd, updateServer_self]
          exact clearCache_cacheCleared _

/-! ### Example fixtures (used by witnesses and counterexamples) -/

/-- An empty server state with a 10-tick cache TTL. -/
def emptyServer : ServerState :=
  { toolMgr := [], resourceMgr := [], templateMgr := [], promptMgr := [],
    mounts := [], cacheTools := none, cacheResources := none,
    cacheTemplates := none, cachePrompts := none, ttl := 10 }

/-- Example mounted child holding one item of each category. -/
def exChild : ServerState :=
  { emptyServer with
    toolMgr := [("add".toList, 2)]
    resourceMgr :=
      [("data".toList, ⟨Except.ok "forecast".toList, "text".toList⟩)]
    templateMgr := [("tpl".toList, 2)]
    promptMgr := [("p".toList, 2)] }

/-- Example parent: mounts the child under prefix `calc` with default
separators and holds a local entry in every category whose key collides
with the child's prefixed key. -/
def exParent : ServerState :=
  { emptyServer with
    toolMgr := [("calc_add".toList, 1)]
    resourceMgr :=
      [("calc+data".toList, ⟨Except.ok "local".toList, "text".toList⟩)]
    templateMgr := [("calc+tpl".toList, 1)]
    promptMgr := [("calc_p".toList, 1)]
    mounts := [MountedServer.mk' ("calc".toList) 1 none none none] }

/-- Heap for the collision examples: server 0 is the parent, 1 the child. -/
def exHeap : Heap := fun i => if i = 0 then exParent else exChild

/-- The example mount binding of `exParent`. -/
def exMount : MountedServer := MountedServer.mk' ("calc".toList) 1 none none none

/-! ### The claims -/

/-- C1: for every tool key and argument mapping, dispatch
(`_mcp_call_tool`) invokes the local tool when the local tool manager
contains the key; otherwise it iterates mount bindings in registration
order and, for the first binding whose tool-match holds, strips the prefix
and recursively calls the target's own dispatch entry point with the
stripped key; the same resolution pattern holds for `read_resource` and
`get_prompt`. -/
theorem claim_C1 (fuel : Nat) (h : Heap) (sid : ServerId) (key : Str)
    (args : Args) (pargs : Option Args) :
    (∀ t, dictGet (h sid).toolMgr key = some t →
        mcpCallTool (fuel + 1) h sid key args = some (Except.ok (t, args)))
  ∧ (∀ m, dictGet (h sid).toolMgr key = none →
        (h sid).mounts.find? (fun mm => mm.matchTool key) = some m →
        mcpCallTool (fuel + 1) h sid key args =
          mcpCallTool fuel h m.server (m.stripToolPrefix key) args)
  ∧ (∀ r, dictGet (h sid).resourceMgr key = some r →
        mcpReadResource (fuel + 1) h sid key =
          some (match r.readResult with
            | Except.ok c => Except.ok (c, r.mimeType)
            | Except.error e => Except.error (Err.resourceError e)))
  ∧ (∀ m, dictGet (h sid).resourceMgr key = none →
        (h sid).mounts.find? (fun mm => mm.matchResource key) = some m →
        mcpReadResource (fuel + 1) h sid key =
          mcpReadResource fuel h m.server (m.stripResourcePrefix key))
  ∧ (∀ p, dictGet (h sid).promptMgr key = some p →
        mcpGetPrompt (fuel + 1) h sid key pargs = some (Except.ok (p, pargs)))
  ∧ (∀ m, dictGet (h sid).promptMgr key = none →
        (h sid).mounts.find? (fun mm => mm.matchPrompt key) = some m →
        mcpGetPrompt (fuel + 1) h sid key pargs =
          mcpGetPrompt fuel h m.server (m.stripPromptPrefix key) pargs) := by
  refine ⟨?_, ?_, ?_, ?_, ?_, ?_⟩
  · intro t ht
    simp [mcpCallTool, ht]
  · intro m h₀ hfind
    simp [mcpCallTool, h₀, hfind]
  · intro r hr
    simp [mcpReadResource, hr]
  · intro m h₀ hfind
    simp [mcpReadResource, h₀, hfind]
  · intro p hp
    simp [mcpGetPrompt, hp]
  · intro m h₀ hfind
    simp [mcpGetPrompt, h₀, hfind]

/-- Witness for C1 on the concrete two-server heap: a local tool call, a
forwarded tool call, and the same two cases for resources and prompts. -/
theorem claim_C1_witness :
    mcpCallTool 2 exHeap 0 "calc_add".toList 7 = some (Except.ok (1, 7))
  ∧ mcpCallTool 2 exHeap 0 "calc_zzz".toList 7 =
      mcpCallTool 1 exHeap 1 "zzz".toList 7
  ∧ mcpReadResource 2 exHeap 0 "calc+data".toList =
      some (Except.ok ("local".toList, "text".toList))
  ∧ mcpReadResource 2 exHeap 0 "calc+zzz".toList =
      mcpReadResource 1 exHeap 1 "zzz".toList
  ∧ mcpGetPrompt 2 exHeap 0 "calc_p".toList (some 3) =
      some (Except.ok (1, some 3))
  ∧ mcpGetPrompt 2 exHeap 0 "calc_q".toList (some 3) =
      mcpGetPrompt 1 exHeap 1 "q".toList (some 3) := by
  refine ⟨?_, ?_, ?_, ?_, ?_, ?_⟩
  · exact (claim_C1 1 exHeap 0 "calc_add".toList 7 (some 3)).1 1 (by decide)
  · exact (claim_C1 1 exHeap 0 "calc_zzz".toList 7 (some 3)).2.1 exMount
      (by decide) (by decide)
  · exact (claim_C1 1 exHeap 0 "calc+data".toList 7 (some 3)).2.2.1
      ⟨Except.ok "local".toList, "text".toList⟩ (by decide)
  · exact (claim_C1 1 exHeap 0 "calc+zzz".toList 7 (some 3)).2.2.2.1 exMount
      (by decide) (by decide)
  · exact (claim_C1 1 exHeap 0 "calc_p".toList 7 (some 3)).2.2.2.2.1 1
      (by decide)
  · exact (claim_C1 1 exHeap 0 "calc_q".toList 7 (some 3)).2.2.2.2.2 exMount
      (by decide) (by decide)

/-- C5: for every key `k` and every mount binding with prefix `p` and
separator `s`: `strip(p+s+k) = k`, `match(p+s+k)` is true, and `match` is
false on every key that does not start with `p+s`; for each of the tool,
resource, and prompt match/strip pairs. -/
theorem claim_C5 (m : MountedServer) (k : Str) :
    m.stripToolPrefix (m.pfx ++ m.toolSeparator ++ k) = k
  ∧ m.matchTool (m.pfx ++ m.toolSeparator ++ k) = true
  ∧ (∀ key, ¬ (m.pfx ++ m.toolSeparator) <+: key → m.matchTool key = false)
  ∧ m.stripResourcePrefix (m.pfx ++ m.resourceSeparator ++ k) = k
  ∧ m.matchResource (m.pfx ++ m.resourceSeparator ++ k) = true
  ∧ (∀ key, ¬ (m.pfx ++ m.resourceSeparator) <+: key →
        m.matchResource key = false)
  ∧ m.stripPromptPrefix (m.pfx ++ m.promptSeparator ++ k) = k
  ∧ m.matchPrompt (m.pfx ++ m.promptSeparator ++ k) = true
  ∧ (∀ key, ¬ (m.pfx ++ m.promptSeparator) <+: key →
        m.matchPrompt key = false) := by
  refine ⟨removePrefix_append _ k, ?_, ?_, removePrefix_append _ k, ?_, ?_,
    removePrefix_append _ k, ?_, ?_⟩
  · exact List.isPrefixOf_iff_prefix.mpr (List.prefix_append _ k)
  · exact fun key hkey => isPrefixOf_eq_false_of_not_prefix hkey
  · exact List.isPrefixOf_iff_prefix.mpr (List.prefix_append _ k)
  · exact fun key hkey => isPrefixOf_eq_false_of_not_prefix hkey
  · exact List.isPrefixOf_iff_prefix.mpr (List.prefix_append _ k)
  · exact fun key hkey => isPrefixOf_eq_false_of_not_prefix hkey

/-- Witness for C5 on the example binding (prefix `calc`, default
separators). -/
theorem claim_C5_witness :
    exMount.stripToolPrefix "calc_add".toList = "add".toList
  ∧ exMount.matchTool "calc_add".toList = true
  ∧ exMount.matchTool "other".toList = false
  ∧ exMount.stripResourcePrefix "calc+data".toList = "data".toList
  ∧ exMount.stripPromptPrefix "calc_p".toList = "p".toList := by
  refine ⟨?_, ?_, ?_, ?_, ?_⟩
  · exact (claim_C5 exMount "add".toList).1
  · exact (claim_C5 exMount "add".toList).2.1
  · exact (claim_C5 exMount []).2.2.1 "other".toList (by decide)
  · exact (claim_C5 exMount "data".toList).2.2.2.1
  · exact (claim_C5 exMount "p".toList).2.2.2.2.2.2.1

/-- C10: for every mount binding and every key on which the binding's
match predicate is false, the corresponding strip operation returns the
key unchanged, for each of the tool, resource, and prompt strip
functions. -/
theorem claim_C10 (m : MountedServer) (key : Str) :
    (m.matchTool key = false → m.stripToolPrefix key = key)
  ∧ (m.matchResource key = false → m.stripResourcePrefix key = key)
  ∧ (m.matchPrompt key = false → m.stripPromptPrefix key = key) := by
  refine ⟨?_, ?_, ?_⟩
  · intro hf
    simp only [MountedServer.matchTool] at hf
    simp [MountedServer.stripToolPrefix, removePrefix, hf]
  · intro hf
    simp only [MountedServer.matchResource] at hf
    simp [MountedServer.stripResourcePrefix, removePrefix, hf]
  · intro hf
    simp only [MountedServer.matchPrompt] at hf
    simp [MountedServer.stripPromptPrefix, removePrefix, hf]

/-- Witness for C10: a non-matching key passes through every strip
unchanged. -/
theorem claim_C10_witness :
    exMount.stripToolPrefix "other".toList = "other".toList
  ∧ exMount.stripResourcePrefix "other".toList = "other".toList
  ∧ exMount.stripPromptPrefix "other".toList = "other".toList := by
  refine ⟨?_, ?_, ?_⟩
  · exact (claim_C10 exMount "other".toList).1 (by decide)
  · exact (claim_C10 exMount "other".toList).2.1 (by decide)
  · exact (claim_C10 exMount "other".toList).2.2 (by decide)

/-- C7: for every key, `TimedCache.get` returns the value most recently
stored by `set` iff that store happened less than the configured TTL ago;
otherwise it returns the `NOT_FOUND` sentinel, which is distinguishable
from every legitimately cached value (even a cached `None`); repeated
gets before expiry return the identical value, and a get after expiry
returns the sentinel although the entry was never cleared. -/
theorem claim_C7 {κ α : Type} [DecidableEq κ] (c : TimedCache κ α) (key : κ)
    (v w : α) (t t' t₁ t₂ u : Nat) :
    (t ≤ t' →
      (((c.set t key v).get t' key = some v) ↔ t' - t < c.expiration))
  ∧ (∀ x : α, some x ≠ (NOT_FOUND : Option α))
  ∧ (t ≤ t₁ → t₁ - t < c.expiration → t ≤ t₂ → t₂ - t < c.expiration →
      (c.set t key v).get t₁ key = (c.set t key v).get t₂ key)
  ∧ (t ≤ t' → c.expiration ≤ t' - t →
      (c.set t key v).get t' key = NOT_FOUND)
  ∧ (u ≤ t' →
      ((((c.set t key v).set u key w).get t' key = some w) ↔
        t' - u < c.expiration)) := by
  have hget : ∀ (c : TimedCache κ α) (now t : Nat) (key : κ) (v : α),
      (c.set t key v).get now key =
        if now < t + c.expiration then some v else NOT_FOUND := by
    intro c now t key v
    simp [TimedCache.set, TimedCache.get]
  have hexpir : ∀ (c : TimedCache κ α) (t : Nat) (key : κ) (v : α),
      (c.set t key v).expiration = c.expiration := fun _ _ _ _ => rfl
  refine ⟨?_, ?_, ?_, ?_, ?_⟩
  · intro hle
    rw [hget]
    split
    · exact ⟨fun _ => by omega, fun _ => rfl⟩
    · refine ⟨fun hc => absurd hc (by simp [NOT_FOUND]), fun hc => ?_⟩
      omega
  · intro x
    simp [NOT_FOUND]
  · intro h1 h2 h3 h4
    rw [hget, hget, if_pos (by omega), if_pos (by omega)]
  · intro hle hexp
    rw [hget, if_neg (by omega)]
  · intro hle
    rw [hget, hexpir]
    split
    · exact ⟨fun _ => by omega, fun _ => rfl⟩
    · refine ⟨fun hc => absurd hc (by simp [NOT_FOUND]), fun hc => ?_⟩
      omega

/-- Witness for C7 at a concrete cache over `Option Nat` values: a cached
Python `None` (`some none`) is still distinguishable from the sentinel; a
get 3 ticks after the set returns it, a get 5 ticks after returns the
sentinel. -/
theorem claim_C7_witness :
    ((((⟨5, fun _ => none⟩ : TimedCache Nat (Option Nat)).set 0 0 none).get
        3 0 = some none) ↔ (3 : Nat) - 0 < 5)
  ∧ some (none : Option Nat) ≠ (NOT_FOUND : Option (Option Nat))
  ∧ (((⟨5, fun _ => none⟩ : TimedCache Nat (Option Nat)).set 0 0 none).get
        5 0 = NOT_FOUND) := by
  refine ⟨?_, ?_, ?_⟩
  · exact (claim_C7 ⟨5, fun _ => none⟩ 0 none none 0 3 0 0 0).1 (by decide)
  · exact (claim_C7 (⟨5, fun _ => none⟩ : TimedCache Nat (Option Nat)) 0 none
      none 0 3 0 0 0).2.1 none
  · exact (claim_C7 ⟨5, fun _ => none⟩ 0 none none 0 5 0 0 0).2.2.2.1
      (by decide) (by decide)

/-- C8: when reading a locally registered resource, an exception raised by
the item's own read is re-raised wrapped as a `ResourceError`, never
silently swallowed, and this error is distinct from the `NotFoundError`
raised for an unresolved URI. -/
theorem claim_C8 (fuel : Nat) (h : Heap) (sid : ServerId) (uri : Str)
    (r : Resource) (e : Str) :
    (dictGet (h sid).resourceMgr uri = some r →
      r.readResult = Except.error e →
      mcpReadResource (fuel + 1) h sid uri =
        some (Except.error (Err.resourceError e)))
  ∧ (∀ m₁ m₂, Err.resourceError m₁ ≠ Err.notFound m₂) := by
  constructor
  · intro hr he
    simp [mcpReadResource, hr, he]
  · intro m₁ m₂ hc
    exact Err.noConfusion hc

/-- Heap for the failing-read example: one local resource whose read
raises. -/
def hFail : Heap := fun _ =>
  { emptyServer with
    resourceMgr := [("r".toList, ⟨Except.error "boom".toList, "x".toList⟩)] }

/-- Witness for C8: the failing read surfaces as a wrapped
`ResourceError`. -/
theorem claim_C8_witness :
    mcpReadResource 1 hFail 0 "r".toList =
      some (Except.error (Err.resourceError "boom".toList))
  ∧ Err.resourceError "boom".toList ≠ Err.notFound "boom".toList := by
  constructor
  · exact (claim_C8 0 hFail 0 "r".toList
      ⟨Except.error "boom".toList, "x".toList⟩ "boom".toList).1
      (by decide) (by decide)
  · exact (claim_C8 0 hFail 0 "r".toList
      ⟨Except.error "boom".toList, "x".toList⟩ "boom".toList).2
      "boom".toList "boom".toList

/-- Heap for the unresolved-dispatch examples: server 0 mounts the empty
server 1 under prefix `calc` and has nothing local. -/
def hC6 : Heap := fun i =>
  if i = 0 then
    { emptyServer with mounts := [MountedServer.mk' ("calc".toList) 1 none none none] }
  else emptyServer

/-- Counterexample to C6 as stated: dispatching `calc_add` matches the
`calc` mount, the recursive dispatch into the (empty) target fails, and
the propagated not-found error names the stripped key `add`, not the
original `calc_add`. -/
theorem claim_C6_cex :
    mcpCallTool 2 hC6 0 "calc_add".toList 7 =
      some (Except.error (Err.notFound ("Unknown tool: ".toList ++ "add".toList)))
  ∧ ("Unknown tool: ".toList ++ "add".toList : Str) ≠
      "Unknown tool: ".toList ++ "calc_add".toList := by
  exact ⟨by decide, by decide⟩

/-- C6 (amended): when the key is absent locally and no mount binding
matches, the raised not-found error carries the original unstripped key
exactly as supplied, for tool, resource and prompt dispatch; when a mount
matches but the recursive dispatch fails, the error instead propagates
from the target unchanged and carries the stripped key. -/
theorem claim_C6 (fuel : Nat) (h : Heap) (sid : ServerId) (key : Str)
    (args : Args) (pargs : Option Args) :
    (dictGet (h sid).toolMgr key = none →
      (h sid).mounts.find? (fun m => m.matchTool key) = none →
      mcpCallTool (fuel + 1) h sid key args =
        some (Except.error (Err.notFound ("Unknown tool: ".toList ++ key))))
  ∧ (dictGet (h sid).resourceMgr key = none →
      (h sid).mounts.find? (fun m => m.matchResource key) = none →
      mcpReadResource (fuel + 1) h sid key =
        some (Except.error (Err.notFound ("Unknown resource: ".toList ++ key))))
  ∧ (dictGet (h sid).promptMgr key = none →
      (h sid).mounts.find? (fun m => m.matchPrompt key) = none →
      mcpGetPrompt (fuel + 1) h sid key pargs =
        some (Except.error (Err.notFound ("Unknown prompt: ".toList ++ key)))) := by
  refine ⟨?_, ?_, ?_⟩
  · intro h₀ hfind
    simp [mcpCallTool, h₀, hfind]
  · intro h₀ hfind
    simp [mcpReadResource, h₀, hfind]
  · intro h₀ hfind
    simp [mcpGetPrompt, h₀, hfind]

/-- Witness for C6 (amended): a key matching no mount yields a not-found
error carrying the key verbatim, in each category. -/
theorem claim_C6_witness :
    mcpCallTool 1 hC6 0 "zzz".toList 7 =
      some (Except.error (Err.notFound ("Unknown tool: ".toList ++ "zzz".toList)))
  ∧ mcpReadResource 1 hC6 0 "zzz".toList =
      some (Except.error (Err.notFound ("Unknown resource: ".toList ++ "zzz".toList)))
  ∧ mcpGetPrompt 1 hC6 0 "zzz".toList none =
      some (Except.error (Err.notFound ("Unknown prompt: ".toList ++ "zzz".toList))) := by
  refine ⟨?_, ?_, ?_⟩
  · exact (claim_C6 0 hC6 0 "zzz".toList 7 none).1 (by decide) (by decide)
  · exact (claim_C6 0 hC6 0 "zzz".toList 7 none).2.1 (by decide) (by decide)
  · exact (claim_C6 0 hC6 0 "zzz".toList 7 none).2.2 (by decide) (by decide)

/-- Counterexample to C9 as stated: unmounting a prefix that was never
mounted raises the builtin `KeyError` from `dict.pop`, not a
`ConfigurationError`. -/
theorem claim_C9_cex :
    FastMCP.unmount (fun _ => emptyServer) 0 "calc".toList =
      Except.error Err.keyError
  ∧ Err.keyError ≠ Err.configurationError := by
  exact ⟨rfl, by decide⟩

/-- C9 (amended): `unmount(prefix)` removes the mount binding at that
prefix, clears the cache and touches no other server; calling `unmount`
with a prefix that was never mounted fails with the builtin `KeyError`
raised by `dict.pop` (not a `ConfigurationError`), leaving the cache
untouched. -/
theorem claim_C9 (h : Heap) (sid sid' : ServerId) (pfx : Str) :
    (∀ h₂, FastMCP.unmount h sid pfx = Except.ok h₂ →
        (h₂ sid).mounts =
            (h sid).mounts.eraseP (fun m => decide (m.pfx = pfx))
        ∧ (h₂ sid).cacheCleared
        ∧ (sid' ≠ sid → h₂ sid' = h sid'))
  ∧ ((∀ m ∈ (h sid).mounts, m.pfx ≠ pfx) →
      FastMCP.unmount h sid pfx = Except.error Err.keyError) := by
  constructor
  · intro h₂ hok
    unfold FastMCP.unmount at hok
    cases hpop : mountsPop (h sid).mounts pfx with
    | none =>
      rw [hpop] at hok
      exact Except.noConfusion hok
    | some ms =>
      rw [hpop] at hok
      have hheap : (updateServer h sid fun s =>
          ({ s with mounts := ms }).clearCache) = h₂ := Except.ok.inj hok
      refine ⟨?_, ?_, ?_⟩
      · rw [← hheap, updateServer_self]
        exact mountsPop_eq_some_eraseP hpop
      · rw [← hheap, updateServer_self]
        exact clearCache_cacheCleared _
      · intro hne
        rw [← hheap]
        exact updateServer_ne h sid sid' _ hne
  · intro habs
    unfold FastMCP.unmount
    rw [mountsPop_eq_none habs]

/-- Witness for C9 (amended): unmounting the example parent's `calc`
binding leaves no mounts and an empty cache; unmounting a never-mounted
prefix fails with `KeyError`. -/
theorem claim_C9_witness :
    ((((FastMCP.unmount exHeap 0 "calc".toList).toOption.getD exHeap) 0).mounts
        = []
      ∧ (((FastMCP.unmount exHeap 0 "calc".toList).toOption.getD exHeap)
          0).cacheCleared)
  ∧ FastMCP.unmount exHeap 0 "other".toList = Except.error Err.keyError := by
  constructor
  · have hres := (claim_C9 exHeap 0 1 "calc".toList).1
      ((FastMCP.unmount exHeap 0 "calc".toList).toOption.getD exHeap) rfl
    exact ⟨by rw [hres.1]; decide, hres.2.1⟩
  · exact (claim_C9 exHeap 0 1 "other".toList).2 (by decide)

/-- C2: for every category, if a locally registered item and a mounted
item's prefixed view produce the same final listed key, the listing
operation returns the local item for that key: local entries are merged
into the accumulator after all mount entries. -/
theorem claim_C2 (fuel now : Nat) (h : Heap) (sid : ServerId) (k : Str) :
    (∀ res h' v, getTools fuel now h sid = some (res, h') →
        cacheRead now (h sid).cacheTools = none →
        (((h' sid).toolMgr).map Prod.fst).Nodup →
        dictGet (h' sid).toolMgr k = some v →
        dictGet res k = some v)
  ∧ (∀ res h' v, getResources fuel now h sid = some (res, h') →
        cacheRead now (h sid).cacheResources = none →
        (((h' sid).resourceMgr).map Prod.fst).Nodup →
        dictGet (h' sid).resourceMgr k = some v →
        dictGet res k = some v)
  ∧ (∀ res h' v, getResourceTemplates fuel now h sid = some (res, h') →
        cacheRead now (h sid).cacheTemplates = none →
        (((h' sid).templateMgr).map Prod.fst).Nodup →
        dictGet (h' sid).templateMgr k = some v →
        dictGet res k = some v)
  ∧ (∀ res h' v, getPrompts fuel now h sid = some (res, h') →
        cacheRead now (h sid).cachePrompts = none →
        (((h' sid).promptMgr).map Prod.fst).Nodup →
        dictGet (h' sid).promptMgr k = some v →
        dictGet res k = some v) := by
  refine ⟨?_, ?_, ?_, ?_⟩ <;>
    exact fun res h' v hres hmiss hnd hloc =>
      listCat_local_precedence _ (fun s v => rfl) fuel now h sid res h' k v
        hres hmiss hnd hloc

/-- Witness for C2: on the collision heap, every category's listing
returns the parent's local item under the colliding key. -/
theorem claim_C2_witness :
    dictGet ((getTools 2 0 exHeap 0).getD ([], exHeap)).1
        "calc_add".toList = some 1
  ∧ dictGet ((getResources 2 0 exHeap 0).getD ([], exHeap)).1
        "calc+data".toList = some ⟨Except.ok "local".toList, "text".toList⟩
  ∧ dictGet ((getResourceTemplates 2 0 exHeap 0).getD ([], exHeap)).1
        "calc+tpl".toList = some 1
  ∧ dictGet ((getPrompts 2 0 exHeap 0).getD ([], exHeap)).1
        "calc_p".toList = some 1 := by
  refine ⟨?_, ?_, ?_, ?_⟩
  · exact (claim_C2 2 0 exHeap 0 "calc_add".toList).1
      ((getTools 2 0 exHeap 0).getD ([], exHeap)).1
      ((getTools 2 0 exHeap 0).getD ([], exHeap)).2 1
      rfl (by decide) (by decide) (by decide)
  · exact (claim_C2 2 0 exHeap 0 "calc+data".toList).2.1
      ((getResources 2 0 exHeap 0).getD ([], exHeap)).1
      ((getResources 2 0 exHeap 0).getD ([], exHeap)).2
      ⟨Except.ok "local".toList, "text".toList⟩
      rfl (by decide) (by decide) (by decide)
  · exact (claim_C2 2 0 exHeap 0 "calc+tpl".toList).2.2.1
      ((getResourceTemplates 2 0 exHeap 0).getD ([], exHeap)).1
      ((getResourceTemplates 2 0 exHeap 0).getD ([], exHeap)).2 1
      rfl (by decide) (by decide) (by decide)
  · exact (claim_C2 2 0 exHeap 0 "calc_p".toList).2.2.2
      ((getPrompts 2 0 exHeap 0).getD ([], exHeap)).1
      ((getPrompts 2 0 exHeap 0).getD ([], exHeap)).2 1
      rfl (by decide) (by decide) (by decide)

/-- Heap for the stale-cache counterexample: server 0 mounts server 1
(which has one tool `t`) under prefix `calc` and has nothing local. -/
def hC3 : Heap := fun i =>
  if i = 0 then
    { emptyServer with
        mounts := [MountedServer.mk' ("calc".toList) 1 none none none] }
  else { emptyServer with toolMgr := [("t".toList, 1)] }

/-- `hC3` after server 0 listed its tools at time 0 (warming its cache). -/
def hC3warm : Heap := ((getTools 2 0 hC3 0).getD ([], hC3)).2

/-- `hC3warm` after a tool `u` is added to the mounted child (server 1). -/
def hC3after : Heap := FastMCP.addTool hC3warm 1 "u".toList 2

/-- Counterexample to C3 as stated: adding a tool to the mounted child
clears only the child's cache — the parent's cache entry survives, and
the parent's next listing (one tick later, within the TTL) returns the
stale cached mapping that does not contain the new `calc_u` key, even
though the child's manager does contain `u`. -/
theorem claim_C3_cex :
    (hC3after 0).cacheTools ≠ none
  ∧ dictGet (hC3after 1).toolMgr "u".toList = some 2
  ∧ (getTools 2 1 hC3after 0).map Prod.fst = some [("calc_t".toList, 1)]
  ∧ dictGet ((getTools 2 1 hC3after 0).getD ([], hC3after)).1
      "calc_u".toList = none := by
  refine ⟨by decide, by decide, by decide, by decide⟩

/-- C3 (amended/corrected): a mutation clears, in full, exactly the cache
of the registry it is applied to — `add_tool`, `add_resource`, the
template case of `add_resource_fn`, `add_prompt` and `mount` clear the
mutated registry's whole cache and leave every other server's state (in
particular a parent's cache) untouched, a successful `unmount` does the
same, and `import_server` ends with the importer's cache empty.  A
mutation applied to a mounted child therefore does not invalidate the
parent's cache: a parent whose cache entry is still warm keeps returning
the cached listing after the child mutation (last conjunct). -/
theorem claim_C3 (h : Heap) (sid sid' : ServerId) (key : Str) (t : Tool)
    (r : Resource) (tp : Template) (p : Prompt) (pfx : Str)
    (tgt : ServerId) (ts rs ps : Option Str) (fuel now : Nat) :
    ((FastMCP.addTool h sid key t) sid).cacheCleared
  ∧ (sid' ≠ sid → (FastMCP.addTool h sid key t) sid' = h sid')
  ∧ ((FastMCP.addResource h sid key r) sid).cacheCleared
  ∧ (sid' ≠ sid → (FastMCP.addResource h sid key r) sid' = h sid')
  ∧ ((FastMCP.addTemplate h sid key tp) sid).cacheCleared
  ∧ (sid' ≠ sid → (FastMCP.addTemplate h sid key tp) sid' = h sid')
  ∧ ((FastMCP.addPrompt h sid key p) sid).cacheCleared
  ∧ (sid' ≠ sid → (FastMCP.addPrompt h sid key p) sid' = h sid')
  ∧ ((FastMCP.mount h sid pfx tgt ts rs ps) sid).cacheCleared
  ∧ (sid' ≠ sid → (FastMCP.mount h sid pfx tgt ts rs ps) sid' = h sid')
  ∧ (∀ h₂, FastMCP.unmount h sid pfx = Except.ok h₂ →
        (h₂ sid).cacheCleared ∧ (sid' ≠ sid → h₂ sid' = h sid'))
  ∧ (∀ h₂, FastMCP.importServer fuel now h sid pfx tgt ts rs ps = some h₂ →
        (h₂ sid).cacheCleared)
  ∧ (∀ f v, sid' ≠ sid →
        cacheRead now ((h sid').cacheTools) = some v →
        getTools (f + 1) now (FastMCP.addTool h sid key t) sid' =
          some (v, FastMCP.addTool h sid key t)) := by
  refine ⟨?_, ?_, ?_, ?_, ?_, ?_, ?_, ?_, ?_, ?_, ?_, ?_, ?_⟩
  · rw [FastMCP.addTool, updateServer_self]
    exact clearCache_cacheCleared _
  · exact fun hne => updateServer_ne h sid sid' _ hne
  · rw [FastMCP.addResource, updateServer_self]
    exact clearCache_cacheCleared _
  · exact fun hne => updateServer_ne h sid sid' _ hne
  · rw [FastMCP.addTemplate, updateServer_self]
    exact clearCache_cacheCleared _
  · exact fun hne => updateServer_ne h sid sid' _ hne
  · rw [FastMCP.addPrompt, updateServer_self]
    exact clearCache_cacheCleared _
  · exact fun hne => updateServer_ne h sid sid' _ hne
  · rw [FastMCP.mount, updateServer_self]
    exact clearCache_cacheCleared _
  · exact fun hne => updateServer_ne h sid sid' _ hne
  · intro h₂ hok
    unfold FastMCP.unmount at hok
    cases hpop : mountsPop (h sid).mounts pfx with
    | none =>
      rw [hpop] at hok
      exact Except.noConfusion hok
    | some ms =>
      rw [hpop] at hok
      have hheap : (updateServer h sid fun s =>
          ({ s with mounts := ms }).clearCache) = h₂ := Except.ok.inj hok
      constructor
      · rw [← hheap, updateServer_self]
        exact clearCache_cacheCleared _
      · intro hne
        rw [← hheap]
        exact updateServer_ne h sid sid' _ hne
  · exact fun h₂ himp => importServer_clears himp
  · intro f v hne hwarm
    have heq : (FastMCP.addTool h sid key t) sid' = h sid' :=
      updateServer_ne h sid sid' _ hne
    have hcond : cacheRead now
        (toolOps.readSlot ((FastMCP.addTool h sid key t) sid')) = some v := by
      show cacheRead now
        (((FastMCP.addTool h sid key t) sid').cacheTools) = some v
      rw [heq]
      exact hwarm
    exact listCat_hit hcond

/-- Witness for C3 (amended): concrete mutations on the example heap
clear exactly the mutated server's cache, and the stale-cache scenario's
parent keeps serving its warm cached listing after the child mutation. -/
theorem claim_C3_witness :
    ((FastMCP.addTool exHeap 0 "n".toList 5) 0).cacheCleared
  ∧ (FastMCP.addTool exHeap 0 "n".toList 5) 1 = exHeap 1
  ∧ ((FastMCP.mount exHeap 0 "m2".toList 1 none none none) 0).cacheCleared
  ∧ (((FastMCP.importServer 2 0 exHeap 0 "x".toList 1 none none
        none).getD exHeap) 0).cacheCleared
  ∧ getTools 2 1 hC3after 0 = some ([("calc_t".toList, 1)], hC3after) := by
  refine ⟨?_, ?_, ?_, ?_, ?_⟩
  · exact (claim_C3 exHeap 0 1 "n".toList 5 ⟨Except.ok [], []⟩ 3 5
      "m2".toList 1 none none none 2 0).1
  · exact (claim_C3 exHeap 0 1 "n".toList 5 ⟨Except.ok [], []⟩ 3 5
      "m2".toList 1 none none none 2 0).2.1 (by decide)
  · obtain ⟨-, -, -, -, -, -, -, -, h9, -⟩ :=
      claim_C3 exHeap 0 1 "n".toList 5 ⟨Except.ok [], []⟩ 3 5
        "m2".toList 1 none none none 2 0
    exact h9
  · obtain ⟨-, -, -, -, -, -, -, -, -, -, -, h12, -⟩ :=
      claim_C3 exHeap 0 1 "n".toList 5 ⟨Except.ok [], []⟩ 3 5
        "x".toList 1 none none none 2 0
    exact h12 ((FastMCP.importServer 2 0 exHeap 0 "x".toList 1 none none
        none).getD exHeap) rfl
  · obtain ⟨-, -, -, -, -, -, -, -, -, -, -, -, h13⟩ :=
      claim_C3 hC3warm 1 0 "u".toList 2 ⟨Except.ok [], []⟩ 3 5
        "x".toList 1 none none none 2 1
    exact h13 1 [("calc_t".toList, 1)] (by decide) (by decide)

theorem mount_live_core {α : Type} (ops : CatOps α) (h₂ : Heap)
    (parent A : ServerId) (pfx sep k : Str) (t : α) (fuel now : Nat)
    (hne : parent ≠ A)
    (hsep : ops.sepOf (MountedServer.mk' pfx A none none none) = sep)
    (hmountsA : (h₂ A).mounts = [])
    (hmissA : cacheRead now (ops.readSlot (h₂ A)) = none)
    (hmountsP : (h₂ parent).mounts =
      [MountedServer.mk' pfx A none none none])
    (hmissP : cacheRead now (ops.readSlot (h₂ parent)) = none)
    (hndA : ((ops.mgr (h₂ A)).map Prod.fst).Nodup)
    (hgetA : dictGet (ops.mgr (h₂ A)) k = some t)
    (hlocP : dictGet (ops.mgr (h₂ parent)) (pfx ++ sep ++ k) = none) :
    ∀ res h',
      listCat ops (fuel + 1 + 1) now h₂ parent = some (res, h') →
      dictGet res (pfx ++ sep ++ k) = some t := by
  intro res h' hres
  have hchild : listCat ops (fuel + 1) now h₂ A =
      some (dictUpdate [] (ops.mgr (h₂ A)),
        updateServer h₂ A fun s =>
          ops.writeSlot s (dictUpdate [] (ops.mgr (h₂ A)), now + s.ttl)) :=
    listCat_nomounts hmountsA hmissA
  rw [listCat_succ ops (fuel + 1) now h₂ parent, hmissP, hmountsP] at hres
  have hlm : listMountsThen (fun tgt hh => listCat ops (fuel + 1) now hh tgt)
      ops.sepOf [MountedServer.mk' pfx A none none none] [] h₂ =
      some (dictUpdate []
          (prefixedView (MountedServer.mk' pfx A none none none).pfx
            (ops.sepOf (MountedServer.mk' pfx A none none none))
            (dictUpdate [] (ops.mgr (h₂ A)))),
        updateServer h₂ A fun s =>
          ops.writeSlot s (dictUpdate [] (ops.mgr (h₂ A)), now + s.ttl)) := by
    simp only [listMountsThen]
    rw [show (MountedServer.mk' pfx A none none none).server = A from rfl,
      hchild]
  rw [hlm] at hres
  have hp := Option.some.inj hres
  rw [Prod.mk.injEq] at hp
  obtain ⟨hfst, hsnd⟩ := hp
  have hup : (updateServer h₂ A fun s =>
      ops.writeSlot s (dictUpdate [] (ops.mgr (h₂ A)), now + s.ttl)) parent =
      h₂ parent := updateServer_ne _ _ _ _ hne
  rw [hup] at hfst
  rw [dictUpdate_nil _ hndA] at hfst
  rw [show (MountedServer.mk' pfx A none none none).pfx = pfx from rfl,
    hsep] at hfst
  have hndpv : ((prefixedView pfx sep (ops.mgr (h₂ A))).map Prod.fst).Nodup :=
    prefixedView_keys_nodup _ _ _ hndA
  rw [dictUpdate_nil _ hndpv] at hfst
  rw [← hfst]
  have hnotmem : (pfx ++ sep ++ k) ∉ (ops.mgr (h₂ parent)).map Prod.fst :=
    (dictGet_eq_none_iff _ _).mp hlocP
  rw [dictGet_dictUpdate_of_not_mem _ _ _ hnotmem,
    dictGet_prefixedView pfx sep _ k]
  exact hgetA

theorem mount_then_add_visible (h : Heap) (parent A : ServerId)
    (pfx k : Str) (t : Tool) (fuel now : Nat)
    (hne : parent ≠ A)
    (hpm : (h parent).mounts = [])
    (ham : (h A).mounts = [])
    (hnd : (((h A).toolMgr).map Prod.fst).Nodup)
    (hloc : dictGet (h parent).toolMgr (pfx ++ ['_'] ++ k) = none) :
    ∀ res h',
      getTools (fuel + 1 + 1) now
        (FastMCP.addTool (FastMCP.mount h parent pfx A none none none) A k t)
        parent = some (res, h') →
      dictGet res (pfx ++ ['_'] ++ k) = some t := by
  intro res h' hres
  have hA2 : (FastMCP.addTool (FastMCP.mount h parent pfx A none none none)
      A k t) A = ((h A).mgrAddTool k t).clearCache := by
    rw [FastMCP.addTool, updateServer_self,
      show (FastMCP.mount h parent pfx A none none none) A = h A from
        updateServer_ne h parent A _ (Ne.symm hne)]
  have hP2 : (FastMCP.addTool (FastMCP.mount h parent pfx A none none none)
      A k t) parent =
      ({ h parent with
          mounts := [MountedServer.mk' pfx A none none none] }).clearCache := by
    rw [FastMCP.addTool, updateServer_ne _ _ _ _ hne, FastMCP.mount,
      updateServer_self, hpm]
    rfl
  have hmountsA : ((FastMCP.addTool (FastMCP.mount h parent pfx A none none none)
      A k t) A).mounts = [] := by
    rw [hA2]
    exact ham
  have hmissA : cacheRead now (((FastMCP.addTool
      (FastMCP.mount h parent pfx A none none none) A k t) A).cacheTools) =
      none := by
    rw [hA2]
    rfl
  have hmountsP : ((FastMCP.addTool (FastMCP.mount h parent pfx A none none none)
      A k t) parent).mounts =
      [MountedServer.mk' pfx A none none none] := by
    rw [hP2]
    rfl
  have hmissP : cacheRead now (((FastMCP.addTool
      (FastMCP.mount h parent pfx A none none none) A k t)
      parent).cacheTools) = none := by
    rw [hP2]
    rfl
  have hndA : ((((FastMCP.addTool (FastMCP.mount h parent pfx A none none none)
      A k t) A).toolMgr).map Prod.fst).Nodup := by
    rw [hA2]
    exact dictSet_keys_nodup _ _ _ hnd
  have hgetA : dictGet (((FastMCP.addTool
      (FastMCP.mount h parent pfx A none none none) A k t) A).toolMgr) k =
      some t := by
    rw [hA2]
    show dictGet (dictSet (h A).toolMgr k t) k = some t
    rw [dictGet_dictSet]
    simp
  have hlocP : dictGet (((FastMCP.addTool
      (FastMCP.mount h parent pfx A none none none) A k t)
      parent).toolMgr) (pfx ++ ['_'] ++ k) = none := by
    rw [hP2]
    exact hloc
  exact mount_live_core toolOps
    (FastMCP.addTool (FastMCP.mount h parent pfx A none none none) A k t)
    parent A pfx ['_'] k t fuel now hne rfl
    hmountsA hmissA hmountsP hmissP hndA hgetA hlocP res h' hres

theorem mount_then_addResource_visible (h : Heap) (parent A : ServerId)
    (pfx k : Str) (r : Resource) (fuel now : Nat)
    (hne : parent ≠ A)
    (hpm : (h parent).mounts = [])
    (ham : (h A).mounts = [])
    (hnd : (((h A).resourceMgr).map Prod.fst).Nodup)
    (hloc : dictGet (h parent).resourceMgr (pfx ++ ['+'] ++ k) = none) :
    ∀ res h',
      getResources (fuel + 1 + 1) now
        (FastMCP.addResource (FastMCP.mount h parent pfx A none none none) A k r)
        parent = some (res, h') →
      dictGet res (pfx ++ ['+'] ++ k) = some r := by
  intro res h' hres
  have hA2 : (FastMCP.addResource (FastMCP.mount h parent pfx A none none none)
      A k r) A = ((h A).mgrAddResource k r).clearCache := by
    rw [FastMCP.addResource, updateServer_self,
      show (FastMCP.mount h parent pfx A none none none) A = h A from
        updateServer_ne h parent A _ (Ne.symm hne)]
  have hP2 : (FastMCP.addResource (FastMCP.mount h parent pfx A none none none)
      A k r) parent =
      ({ h parent with
          mounts := [MountedServer.mk' pfx A none none none] }).clearCache := by
    rw [FastMCP.addResource, updateServer_ne _ _ _ _ hne, FastMCP.mount,
      updateServer_self, hpm]
    rfl
  have hmountsA : ((FastMCP.addResource (FastMCP.mount h parent pfx A none none none)
      A k r) A).mounts = [] := by
    rw [hA2]
    exact ham
  have hmissA : cacheRead now (((FastMCP.addResource
      (FastMCP.mount h parent pfx A none none none) A k r) A).cacheResources) =
      none := by
    rw [hA2]
    rfl
  have hmountsP : ((FastMCP.addResource (FastMCP.mount h parent pfx A none none none)
      A k r) parent).mounts =
      [MountedServer.mk' pfx A none none none] := by
    rw [hP2]
    rfl
  have hmissP : cacheRead now (((FastMCP.addResource
      (FastMCP.mount h parent pfx A none none none) A k r)
      parent).cacheResources) = none := by
    rw [hP2]
    rfl
  have hndA : ((((FastMCP.addResource (FastMCP.mount h parent pfx A none none none)
      A k r) A).resourceMgr).map Prod.fst).Nodup := by
    rw [hA2]
    exact dictSet_keys_nodup _ _ _ hnd
  have hgetA : dictGet (((FastMCP.addResource
      (FastMCP.mount h parent pfx A none none none) A k r) A).resourceMgr) k =
      some r := by
    rw [hA2]
    show dictGet (dictSet (h A).resourceMgr k r) k = some r
    rw [dictGet_dictSet]
    simp
  have hlocP : dictGet (((FastMCP.addResource
      (FastMCP.mount h parent pfx A none none none) A k r)
      parent).resourceMgr) (pfx ++ ['+'] ++ k) = none := by
    rw [hP2]
    exact hloc
  exact mount_live_core resourceOps
    (FastMCP.addResource (FastMCP.mount h parent pfx A none none none) A k r)
    parent A pfx ['+'] k r fuel now hne rfl
    hmountsA hmissA hmountsP hmissP hndA hgetA hlocP res h' hres

theorem mount_then_addTemplate_visible (h : Heap) (parent A : ServerId)
    (pfx k : Str) (tp : Template) (fuel now : Nat)
    (hne : parent ≠ A)
    (hpm : (h parent).mounts = [])
    (ham : (h A).mounts = [])
    (hnd : (((h A).templateMgr).map Prod.fst).Nodup)
    (hloc : dictGet (h parent).templateMgr (pfx ++ ['+'] ++ k) = none) :
    ∀ res h',
      getResourceTemplates (fuel + 1 + 1) now
        (FastMCP.addTemplate (FastMCP.mount h parent pfx A none none none) A k tp)
        parent = some (res, h') →
      dictGet res (pfx ++ ['+'] ++ k) = some tp := by
  intro res h' hres
  have hA2 : (FastMCP.addTemplate (FastMCP.mount h parent pfx A none none none)
      A k tp) A = ((h A).mgrAddTemplate k tp).clearCache := by
    rw [FastMCP.addTemplate, updateServer_self,
      show (FastMCP.mount h parent pfx A none none none) A = h A from
        updateServer_ne h parent A _ (Ne.symm hne)]
  have hP2 : (FastMCP.addTemplate (FastMCP.mount h parent pfx A none none none)
      A k tp) parent =
      ({ h parent with
          mounts := [MountedServer.mk' pfx A none none none] }).clearCache := by
    rw [FastMCP.addTemplate, updateServer_ne _ _ _ _ hne, FastMCP.mount,
      updateServer_self, hpm]
    rfl
  have hmountsA : ((FastMCP.addTemplate (FastMCP.mount h parent pfx A none none none)
      A k tp) A).mounts = [] := by
    rw [hA2]
    exact ham
  have hmissA : cacheRead now (((FastMCP.addTemplate
      (FastMCP.mount h parent pfx A none none none) A k tp) A).cacheTemplates) =
      none := by
    rw [hA2]
    rfl
  have hmountsP : ((FastMCP.addTemplate (FastMCP.mount h parent pfx A none none none)
      A k tp) parent).mounts =
      [MountedServer.mk' pfx A none none none] := by
    rw [hP2]
    rfl
  have hmissP : cacheRead now (((FastMCP.addTemplate
      (FastMCP.mount h parent pfx A none none none) A k tp)
      parent).cacheTemplates) = none := by
    rw [hP2]
    rfl
  have hndA : ((((FastMCP.addTemplate (FastMCP.mount h parent pfx A none none none)
      A k tp) A).templateMgr).map Prod.fst).Nodup := by
    rw [hA2]
    exact dictSet_keys_nodup _ _ _ hnd
  have hgetA : dictGet (((FastMCP.addTemplate
      (FastMCP.mount h parent pfx A none none none) A k tp) A).templateMgr) k =
      some tp := by
    rw [hA2]
    show dictGet (dictSet (h A).templateMgr k tp) k = some tp
    rw [dictGet_dictSet]
    simp
  have hlocP : dictGet (((FastMCP.addTemplate
      (FastMCP.mount h parent pfx A none none none) A k tp)
      parent).templateMgr) (pfx ++ ['+'] ++ k) = none := by
    rw [hP2]
    exact hloc
  exact mount_live_core templateOps
    (FastMCP.addTemplate (FastMCP.mount h parent pfx A none none none) A k tp)
    parent A pfx ['+'] k tp fuel now hne rfl
    hmountsA hmissA hmountsP hmissP hndA hgetA hlocP res h' hres

theorem mount_then_addPrompt_visible (h : Heap) (parent A : ServerId)
    (pfx k : Str) (p : Prompt) (fuel now : Nat)
    (hne : parent ≠ A)
    (hpm : (h parent).mounts = [])
    (ham : (h A).mounts = [])
    (hnd : (((h A).promptMgr).map Prod.fst).Nodup)
    (hloc : dictGet (h parent).promptMgr (pfx ++ ['_'] ++ k) = none) :
    ∀ res h',
      getPrompts (fuel + 1 + 1) now
        (FastMCP.addPrompt (FastMCP.mount h parent pfx A none none none) A k p)
        parent = some (res, h') →
      dictGet res (pfx ++ ['_'] ++ k) = some p := by
  intro res h' hres
  have hA2 : (FastMCP.addPrompt (FastMCP.mount h parent pfx A none none none)
      A k p) A = ((h A).mgrAddPrompt k p).clearCache := by
    rw [FastMCP.addPrompt, updateServer_self,
      show (FastMCP.mount h parent pfx A none none none) A = h A from
        updateServer_ne h parent A _ (Ne.symm hne)]
  have hP2 : (FastMCP.addPrompt (FastMCP.mount h parent pfx A none none none)
      A k p) parent =
      ({ h parent with
          mounts := [MountedServer.mk' pfx A none none none] }).clearCache := by
    rw [FastMCP.addPrompt, updateServer_ne _ _ _ _ hne, FastMCP.mount,
      updateServer_self, hpm]
    rfl
  have hmountsA : ((FastMCP.addPrompt (FastMCP.mount h parent pfx A none none none)
      A k p) A).mounts = [] := by
    rw [hA2]
    exact ham
  have hmissA : cacheRead now (((FastMCP.addPrompt
      (FastMCP.mount h parent pfx A none none none) A k p) A).cachePrompts) =
      none := by
    rw [hA2]
    rfl
  have hmountsP : ((FastMCP.addPrompt (FastMCP.mount h parent pfx A none none none)
      A k p) parent).mounts =
      [MountedServer.mk' pfx A none none none] := by
    rw [hP2]
    rfl
  have hmissP : cacheRead now (((FastMCP.addPrompt
      (FastMCP.mount h parent pfx A none none none) A k p)
      parent).cachePrompts) = none := by
    rw [hP2]
    rfl
  have hndA : ((((FastMCP.addPrompt (FastMCP.mount h parent pfx A none none none)
      A k p) A).promptMgr).map Prod.fst).Nodup := by
    rw [hA2]
    exact dictSet_keys_nodup _ _ _ hnd
  have hgetA : dictGet (((FastMCP.addPrompt
      (FastMCP.mount h parent pfx A none none none) A k p) A).promptMgr) k =
      some p := by
    rw [hA2]
    show dictGet (dictSet (h A).promptMgr k p) k = some p
    rw [dictGet_dictSet]
    simp
  have hlocP : dictGet (((FastMCP.addPrompt
      (FastMCP.mount h parent pfx A none none none) A k p)
      parent).promptMgr) (pfx ++ ['_'] ++ k) = none := by
    rw [hP2]
    exact hloc
  exact mount_live_core promptOps
    (FastMCP.addPrompt (FastMCP.mount h parent pfx A none none none) A k p)
    parent A pfx ['_'] k p fuel now hne rfl
    hmountsA hmissA hmountsP hmissP hndA hgetA hlocP res h' hres

/-- C4: `import_server` copies the source's current prefixed entries into
the local leaf registries and retains no reference to the source — after
the import, mutating the source (adding a tool, resource, template or
prompt) does not change the importer's listing in any category (conjunct
1); the manager-level adds used during the import do not clear
the importer's cache (each of the four per-category sections leaves
every slot of the importer's cache untouched, conjuncts 2–5) and the cache is
cleared exactly once, at the very end of the import (conjunct 6).  By
contrast, after `mount`, an item of any category later added to the
target is visible through the mounting registry once its cache entry is
invalidated (conjunct 7: the mount itself cleared the parent's cache, so
the next listing shows the item added afterwards). -/
theorem claim_C4 (fuel now f2 n2 : Nat) (h : Heap) (sid : ServerId)
    (pfx : Str) (src : ServerId) (ts rs ps : Option Str) (k : Str)
    (t : Tool) (r : Resource) (tp : Template) (p : Prompt) :
    (∀ h', FastMCP.importServer fuel now h sid pfx src ts rs ps = some h' →
        sid ≠ src → (h' sid).mounts = [] →
        ((getTools f2 n2 (FastMCP.addTool h' src k t) sid).map Prod.fst =
            (getTools f2 n2 h' sid).map Prod.fst
          ∧ (getResources f2 n2 (FastMCP.addResource h' src k r) sid).map
              Prod.fst = (getResources f2 n2 h' sid).map Prod.fst
          ∧ (getResourceTemplates f2 n2 (FastMCP.addTemplate h' src k tp)
              sid).map Prod.fst =
              (getResourceTemplates f2 n2 h' sid).map Prod.fst
          ∧ (getPrompts f2 n2 (FastMCP.addPrompt h' src k p) sid).map
              Prod.fst = (getPrompts f2 n2 h' sid).map Prod.fst))
  ∧ (∀ h₁, sid ≠ src → (h src).mounts = [] →
        importToolsStep fuel now h sid pfx (ts.getD ['_']) src = some h₁ →
        (h₁ sid).cacheTools = (h sid).cacheTools
        ∧ (h₁ sid).cacheResources = (h sid).cacheResources
        ∧ (h₁ sid).cacheTemplates = (h sid).cacheTemplates
        ∧ (h₁ sid).cachePrompts = (h sid).cachePrompts)
  ∧ (∀ h₁, sid ≠ src → (h src).mounts = [] →
        importResourcesStep fuel now h sid pfx (rs.getD ['+']) src =
          some h₁ →
        (h₁ sid).cacheTools = (h sid).cacheTools
        ∧ (h₁ sid).cacheResources = (h sid).cacheResources
        ∧ (h₁ sid).cacheTemplates = (h sid).cacheTemplates
        ∧ (h₁ sid).cachePrompts = (h sid).cachePrompts)
  ∧ (∀ h₁, sid ≠ src → (h src).mounts = [] →
        importTemplatesStep fuel now h sid pfx (rs.getD ['+']) src =
          some h₁ →
        (h₁ sid).cacheTools = (h sid).cacheTools
        ∧ (h₁ sid).cacheResources = (h sid).cacheResources
        ∧ (h₁ sid).cacheTemplates = (h sid).cacheTemplates
        ∧ (h₁ sid).cachePrompts = (h sid).cachePrompts)
  ∧ (∀ h₁, sid ≠ src → (h src).mounts = [] →
        importPromptsStep fuel now h sid pfx (ps.getD ['_']) src =
          some h₁ →
        (h₁ sid).cacheTools = (h sid).cacheTools
        ∧ (h₁ sid).cacheResources = (h sid).cacheResources
        ∧ (h₁ sid).cacheTemplates = (h sid).cacheTemplates
        ∧ (h₁ sid).cachePrompts = (h sid).cachePrompts)
  ∧ (∀ h', FastMCP.importServer fuel now h sid pfx src ts rs ps = some h' →
        (h' sid).cacheCleared)
  ∧ (∀ parent A, parent ≠ A → (h parent).mounts = [] →
        (h A).mounts = [] →
        (((((h A).toolMgr).map Prod.fst).Nodup →
          dictGet (h parent).toolMgr (pfx ++ ['_'] ++ k) = none →
          ∀ res h',
            getTools (f2 + 1 + 1) n2
              (FastMCP.addTool (FastMCP.mount h parent pfx A none none none)
                A k t) parent = some (res, h') →
            dictGet res (pfx ++ ['_'] ++ k) = some t)
        ∧ ((((h A).resourceMgr).map Prod.fst).Nodup →
          dictGet (h parent).resourceMgr (pfx ++ ['+'] ++ k) = none →
          ∀ res h',
            getResources (f2 + 1 + 1) n2
              (FastMCP.addResource
                (FastMCP.mount h parent pfx A none none none) A k r)
              parent = some (res, h') →
            dictGet res (pfx ++ ['+'] ++ k) = some r)
        ∧ ((((h A).templateMgr).map Prod.fst).Nodup →
          dictGet (h parent).templateMgr (pfx ++ ['+'] ++ k) = none →
          ∀ res h',
            getResourceTemplates (f2 + 1 + 1) n2
              (FastMCP.addTemplate
                (FastMCP.mount h parent pfx A none none none) A k tp)
              parent = some (res, h') →
            dictGet res (pfx ++ ['+'] ++ k) = some tp)
        ∧ ((((h A).promptMgr).map Prod.fst).Nodup →
          dictGet (h parent).promptMgr (pfx ++ ['_'] ++ k) = none →
          ∀ res h',
            getPrompts (f2 + 1 + 1) n2
              (FastMCP.addPrompt
                (FastMCP.mount h parent pfx A none none none) A k p)
              parent = some (res, h') →
            dictGet res (pfx ++ ['_'] ++ k) = some p))) := by
  refine ⟨?_, ?_, ?_, ?_, ?_, ?_, ?_⟩
  · intro h' himp hne hm
    have hsT : (FastMCP.addTool h' src k t) sid = h' sid :=
      updateServer_ne h' src sid _ hne
    have hsR : (FastMCP.addResource h' src k r) sid = h' sid :=
      updateServer_ne h' src sid _ hne
    have hsTp : (FastMCP.addTemplate h' src k tp) sid = h' sid :=
      updateServer_ne h' src sid _ hne
    have hsP : (FastMCP.addPrompt h' src k p) sid = h' sid :=
      updateServer_ne h' src sid _ hne
    exact ⟨listCat_fst_congr toolOps f2 n2 _ h' sid
        (by rw [hsT]; exact hm) hsT,
      listCat_fst_congr resourceOps f2 n2 _ h' sid
        (by rw [hsR]; exact hm) hsR,
      listCat_fst_congr templateOps f2 n2 _ h' sid
        (by rw [hsTp]; exact hm) hsTp,
      listCat_fst_congr promptOps f2 n2 _ h' sid
        (by rw [hsP]; exact hm) hsP⟩
  · intro h₁ hne hm hstep
    cases fuel with
    | zero => exact Option.noConfusion hstep
    | succ f =>
      unfold importToolsStep at hstep
      cases hg : getTools (f + 1) now h src with
      | none =>
        rw [hg] at hstep
        exact Option.noConfusion hstep
      | some q =>
        obtain ⟨tools, hg'⟩ := q
        rw [hg] at hstep
        have hh : (updateServer hg' sid fun s =>
            { s with toolMgr := (dictUpdate s.toolMgr
                (prefixedView pfx (ts.getD ['_']) tools)) }) = h₁ :=
          Option.some.inj hstep
        have hoff : hg' sid = h sid :=
          listCat_nomounts_offsid hm hg sid hne
        refine ⟨?_, ?_, ?_, ?_⟩ <;>
          (rw [← hh, updateServer_self, hoff])
  · intro h₁ hne hm hstep
    cases fuel with
    | zero => exact Option.noConfusion hstep
    | succ f =>
      unfold importResourcesStep at hstep
      cases hg : getResources (f + 1) now h src with
      | none =>
        rw [hg] at hstep
        exact Option.noConfusion hstep
      | some q =>
        obtain ⟨ress, hg'⟩ := q
        rw [hg] at hstep
        have hh : (updateServer hg' sid fun s =>
            { s with resourceMgr := (dictUpdate s.resourceMgr
                (prefixedView pfx (rs.getD ['+']) ress)) }) = h₁ :=
          Option.some.inj hstep
        have hoff : hg' sid = h sid :=
          listCat_nomounts_offsid hm hg sid hne
        refine ⟨?_, ?_, ?_, ?_⟩ <;>
          (rw [← hh, updateServer_self, hoff])
  · intro h₁ hne hm hstep
    cases fuel with
    | zero => exact Option.noConfusion hstep
    | succ f =>
      unfold importTemplatesStep at hstep
      cases hg : getResourceTemplates (f + 1) now h src with
      | none =>
        rw [hg] at hstep
        exact Option.noConfusion hstep
      | some q =>
        obtain ⟨tpls, hg'⟩ := q
        rw [hg] at hstep
        have hh : (updateServer hg' sid fun s =>
            { s with templateMgr := (dictUpdate s.templateMgr
                (prefixedView pfx (rs.getD ['+']) tpls)) }) = h₁ :=
          Option.some.inj hstep
        have hoff : hg' sid = h sid :=
          listCat_nomounts_offsid hm hg sid hne
        refine ⟨?_, ?_, ?_, ?_⟩ <;>
          (rw [← hh, updateServer_self, hoff])
  · intro h₁ hne hm hstep
    cases fuel with
    | zero => exact Option.noConfusion hstep
    | succ f =>
      unfold importPromptsStep at hstep
      cases hg : getPrompts (f + 1) now h src with
      | none =>
        rw [hg] at hstep
        exact Option.noConfusion hstep
      | some q =>
        obtain ⟨prs, hg'⟩ := q
        rw [hg] at hstep
        have hh : (updateServer hg' sid fun s =>
            { s with promptMgr := (dictUpdate s.promptMgr
                (prefixedView pfx (ps.getD ['_']) prs)) }) = h₁ :=
          Option.some.inj hstep
        have hoff : hg' sid = h sid :=
          listCat_nomounts_offsid hm hg sid hne
        refine ⟨?_, ?_, ?_, ?_⟩ <;>
          (rw [← hh, updateServer_self, hoff])
  · exact fun h' himp => importServer_clears himp
  · exact fun parent A hne hpm ham =>
      ⟨fun hnd hloc =>
          mount_then_add_visible h parent A pfx k t f2 n2 hne hpm ham
            hnd hloc,
        fun hnd hloc =>
          mount_then_addResource_visible h parent A pfx k r f2 n2 hne hpm
            ham hnd hloc,
        fun hnd hloc =>
          mount_then_addTemplate_visible h parent A pfx k tp f2 n2 hne hpm
            ham hnd hloc,
        fun hnd hloc =>
          mount_then_addPrompt_visible h parent A pfx k p f2 n2 hne hpm
            ham hnd hloc⟩

/-- Heap for the import/mount-liveness witness: server 0 is an empty
registry that imports, server 1 the source with one item per category. -/
def hImp : Heap := fun i => if i = 0 then emptyServer else exChild

/-- Server 0 of `hImp` after importing server 1 under prefix `ext`. -/
def hImpAfter : Heap :=
  (FastMCP.importServer 2 0 hImp 0 "ext".toList 1 none none none).getD hImp

/-- Witness for C4: after the concrete import, adding a tool or a
resource to the source leaves the respective listing of the registry
that imported unchanged; the tools and resources sections of
the import leave the corresponding cache slots untouched; the whole
import-and-clear sequence ends with an empty cache; and after a mount, a tool and a resource
added to the target afterwards show up in the next listing under their
prefixed names. -/
theorem claim_C4_witness :
    ((getTools 2 0 (FastMCP.addTool hImpAfter 1 "new".toList 9) 0).map
        Prod.fst = (getTools 2 0 hImpAfter 0).map Prod.fst)
  ∧ ((getResources 2 0 (FastMCP.addResource hImpAfter 1 "new".toList
        ⟨Except.ok "c".toList, "t".toList⟩) 0).map Prod.fst =
        (getResources 2 0 hImpAfter 0).map Prod.fst)
  ∧ (((importToolsStep 2 0 hImp 0 "ext".toList "_".toList 1).getD hImp)
        0).cacheTools = (hImp 0).cacheTools
  ∧ (((importResourcesStep 2 0 hImp 0 "ext".toList "+".toList 1).getD
        hImp) 0).cacheResources = (hImp 0).cacheResources
  ∧ (hImpAfter 0).cacheCleared
  ∧ dictGet (((getTools (0 + 1 + 1) 0
        (FastMCP.addTool (FastMCP.mount hImp 0 "calc".toList 1 none none
          none) 1 "new".toList 9) 0).getD ([], hImp)).1)
      "calc_new".toList = some 9
  ∧ dictGet (((getResources (0 + 1 + 1) 0
        (FastMCP.addResource (FastMCP.mount hImp 0 "calc".toList 1 none
          none none) 1 "new".toList ⟨Except.ok "c".toList, "t".toList⟩)
        0).getD ([], hImp)).1)
      "calc+new".toList =
      some (⟨Except.ok "c".toList, "t".toList⟩ : Resource) := by
  refine ⟨?_, ?_, ?_, ?_, ?_, ?_, ?_⟩
  · exact ((claim_C4 2 0 2 0 hImp 0 "ext".toList 1 none none none
      "new".toList 9 ⟨Except.ok "c".toList, "t".toList⟩ 7 5).1 hImpAfter
      rfl (by decide) (by decide)).1
  · exact ((claim_C4 2 0 2 0 hImp 0 "ext".toList 1 none none none
      "new".toList 9 ⟨Except.ok "c".toList, "t".toList⟩ 7 5).1 hImpAfter
      rfl (by decide) (by decide)).2.1
  · exact ((claim_C4 2 0 2 0 hImp 0 "ext".toList 1 none none none
      "new".toList 9 ⟨Except.ok "c".toList, "t".toList⟩ 7 5).2.1
      ((importToolsStep 2 0 hImp 0 "ext".toList "_".toList 1).getD hImp)
      (by decide) (by decide) rfl).1
  · exact ((claim_C4 2 0 2 0 hImp 0 "ext".toList 1 none none none
      "new".toList 9 ⟨Except.ok "c".toList, "t".toList⟩ 7 5).2.2.1
      ((importResourcesStep 2 0 hImp 0 "ext".toList "+".toList 1).getD
        hImp)
      (by decide) (by decide) rfl).2.1
  · exact (claim_C4 2 0 2 0 hImp 0 "ext".toList 1 none none none
      "new".toList 9 ⟨Except.ok "c".toList, "t".toList⟩ 7 5).2.2.2.2.2.1
      hImpAfter rfl
  · exact ((claim_C4 2 0 0 0 hImp 0 "calc".toList 1 none none none
      "new".toList 9 ⟨Except.ok "c".toList, "t".toList⟩ 7 5).2.2.2.2.2.2
      0 1 (by decide) (by decide) (by decide)).1 (by decide) (by decide)
      (((getTools (0 + 1 + 1) 0
        (FastMCP.addTool (FastMCP.mount hImp 0 "calc".toList 1 none none
          none) 1 "new".toList 9) 0).getD ([], hImp)).1)
      (((getTools (0 + 1 + 1) 0
        (FastMCP.addTool (FastMCP.mount hImp 0 "calc".toList 1 none none
          none) 1 "new".toList 9) 0).getD ([], hImp)).2)
      rfl
  · exact ((claim_C4 2 0 0 0 hImp 0 "calc".toList 1 none none none
      "new".toList 9 ⟨Except.ok "c".toList, "t".toList⟩ 7 5).2.2.2.2.2.2
      0 1 (by decide) (by decide) (by decide)).2.1 (by decide) (by decide)
      (((getResources (0 + 1 + 1) 0
        (FastMCP.addResource (FastMCP.mount hImp 0 "calc".toList 1 none
          none none) 1 "new".toList ⟨Except.ok "c".toList, "t".toList⟩)
        0).getD ([], hImp)).1)
      (((getResources (0 + 1 + 1) 0
        (FastMCP.addResource (FastMCP.mount hImp 0 "calc".toList 1 none
          none none) 1 "new".toList ⟨Except.ok "c".toList, "t".toList⟩)
        0).getD ([], hImp)).2)
      rfl

end FastMCPModel
